import Mathlib

/-!
Verification of the feedparser-rs core against its specification.

This file gives a shallow embedding of the relevant parts of the
`feedparser-rs-core` crate in Lean 4 and proves (or refutes) the claims
of the specification.

Embedding conventions:
* Rust `String`/`&str` become Lean `String`; raw bytes become `List UInt8`.
* Rust `Vec<T>` becomes `List T`; `HashMap<String, String>` becomes an
  association list `List (String × String)` (only emptiness matters here).
* Fallible Rust code (`Result<T, FeedError>`) becomes `Except FeedError T`.
* The `quick_xml` pull reader is modelled as a list of `XmlEvent`s: the
  parser functions in `parser/rss.rs` consume events one at a time, which
  is exactly how `Reader::read_event_into` presents the input.  Event
  names stand for local names (`local_name()` in the source strips any
  namespace part).  Raw input is a `RawInput`: the byte length (used only
  by the pre-flight size check) together with the event stream the
  tokenizer yields on those bytes; malformed bytes are represented by
  `parseError` events, which is how `quick_xml` surfaces them.
* `chrono::DateTime<Utc>` is modelled by `DateTimeUtc`; only presence or
  absence of a timestamp is ever observed here because the date parser of
  this revision is a stub that never produces one.
* Functions declared in the crate but whose defining file is not part of
  the provided sources (`limits.rs`, `error.rs`, `parser/common.rs`,
  `types/version.rs`, `types/generics.rs`) are modelled from the
  specification; each such definition carries a doc comment starting with
  "Modelled from the spec:".
-/

namespace FeedParser

/-- Stand-in for `chrono::DateTime<Utc>`: an instant in time.  The claims
only ever test whether a timestamp is present, never its value, because
`util::date::parse_date` in this revision is a stub returning `None`. -/
structure DateTimeUtc where
  epochMillis : Int
deriving Repr, DecidableEq

/-- Modelled from the spec: the `FeedVersion` enumeration of
`types/version.rs` (the file is declared in `types/mod.rs` but absent from
the sources).  The spec lists the variants
Rss20, Rss10, Rss09x, Atom03, Atom10, JsonFeed10, JsonFeed11, Unknown. -/
inductive FeedVersion where
  | rss20
  | rss10
  | rss09x
  | atom03
  | atom10
  | jsonFeed10
  | jsonFeed11
  | unknown
deriving Repr, DecidableEq

/-- The `Link` record of `types/common.rs`. -/
structure Link where
  href : String
  rel : Option String := none
  link_type : Option String := none
  title : Option String := none
  length : Option Nat := none
  hreflang : Option String := none
deriving Repr, DecidableEq

/-- The `Person` record of `types/common.rs`. -/
structure Person where
  name : Option String := none
  email : Option String := none
  uri : Option String := none
deriving Repr, DecidableEq

/-- The `Tag` record of `types/common.rs`. -/
structure Tag where
  term : String
  scheme : Option String := none
  label : Option String := none
deriving Repr, DecidableEq

/-- The `Image` record of `types/common.rs`. -/
structure Image where
  url : String
  title : Option String := none
  link : Option String := none
  width : Option Nat := none
  height : Option Nat := none
  description : Option String := none
deriving Repr, DecidableEq

/-- The `Enclosure` record of `types/common.rs`. -/
structure Enclosure where
  url : String
  length : Option Nat := none
  enclosure_type : Option String := none
deriving Repr, DecidableEq

/-- The `Content` record of `types/common.rs`. -/
structure Content where
  value : String
  content_type : Option String := none
  language : Option String := none
  base : Option String := none
deriving Repr, DecidableEq

/-- The `TextType` enumeration of `types/common.rs`. -/
inductive TextType where
  | text
  | html
  | xhtml
deriving Repr, DecidableEq

/-- The `TextConstruct` record of `types/common.rs`. -/
structure TextConstruct where
  value : String
  content_type : TextType
  language : Option String := none
  base : Option String := none
deriving Repr, DecidableEq

/-- The `Generator` record of `types/common.rs`. -/
structure Generator where
  value : String
  uri : Option String := none
  version : Option String := none
deriving Repr, DecidableEq

/-- The `Source` record of `types/common.rs`. -/
structure Source where
  title : Option String := none
  link : Option String := none
  id : Option String := none
deriving Repr, DecidableEq

/-- The `FeedMeta` record of `types/feed.rs`.  Capacity-hint constructors
of the source (`with_rss_capacity` and friends) only pre-allocate and are
observationally the default value, so they are not modelled separately. -/
structure FeedMeta where
  title : Option String := none
  title_detail : Option TextConstruct := none
  link : Option String := none
  links : List Link := []
  subtitle : Option String := none
  subtitle_detail : Option TextConstruct := none
  updated : Option DateTimeUtc := none
  author : Option String := none
  author_detail : Option Person := none
  authors : List Person := []
  contributors : List Person := []
  publisher : Option String := none
  publisher_detail : Option Person := none
  language : Option String := none
  rights : Option String := none
  rights_detail : Option TextConstruct := none
  generator : Option String := none
  generator_detail : Option Generator := none
  image : Option Image := none
  icon : Option String := none
  logo : Option String := none
  tags : List Tag := []
  id : Option String := none
  ttl : Option Nat := none
deriving Repr, DecidableEq

/-- The `Entry` record of `types/entry.rs`.  `Entry::with_capacity` only
pre-allocates and is observationally `Entry.default`, so the embedding
uses the default value where the source calls `with_capacity`. -/
structure Entry where
  id : Option String := none
  title : Option String := none
  title_detail : Option TextConstruct := none
  link : Option String := none
  links : List Link := []
  summary : Option String := none
  summary_detail : Option TextConstruct := none
  content : List Content := []
  published : Option DateTimeUtc := none
  updated : Option DateTimeUtc := none
  created : Option DateTimeUtc := none
  expired : Option DateTimeUtc := none
  author : Option String := none
  author_detail : Option Person := none
  authors : List Person := []
  contributors : List Person := []
  publisher : Option String := none
  publisher_detail : Option Person := none
  tags : List Tag := []
  enclosures : List Enclosure := []
  comments : Option String := none
  source : Option Source := none
deriving Repr, DecidableEq

/-- The `ParsedFeed` record of `types/feed.rs`. -/
structure ParsedFeed where
  feed : FeedMeta := {}
  entries : List Entry := []
  bozo : Bool := false
  bozo_exception : Option String := none
  encoding : String := ""
  version : FeedVersion := .unknown
  namespaces : List (String × String) := []
deriving Repr, DecidableEq

/-- `ParsedFeed::new` in `types/feed.rs`: the default value with encoding
set to "utf-8". -/
def ParsedFeed.new : ParsedFeed :=
  { encoding := "utf-8" }

/-- Modelled from the spec: the `ParserLimits` configuration of
`limits.rs` (declared in `lib.rs` but absent from the sources).  The field
set comes from the option table in the specification. -/
structure ParserLimits where
  max_feed_size_bytes : Nat
  max_entries : Nat
  max_links_per_feed : Nat
  max_links_per_entry : Nat
  max_authors : Nat
  max_contributors : Nat
  max_tags : Nat
  max_content_blocks : Nat
  max_enclosures : Nat
  max_namespaces : Nat
  max_nesting_depth : Nat
  max_text_length : Nat
  max_attribute_length : Nat
deriving Repr, DecidableEq

/-- Modelled from the spec: default limits ("size 100 MB; entries 10,000;
most per-collection caps 20-100").  No claim depends on the exact
numbers. -/
def ParserLimits.default : ParserLimits where
  max_feed_size_bytes := 100 * 1024 * 1024
  max_entries := 10000
  max_links_per_feed := 50
  max_links_per_entry := 50
  max_authors := 20
  max_contributors := 20
  max_tags := 100
  max_content_blocks := 20
  max_enclosures := 20
  max_namespaces := 50
  max_nesting_depth := 100
  max_text_length := 1048576
  max_attribute_length := 65536

/-- Modelled from the spec: the `FeedError` type of `error.rs` (absent
from the sources).  `parser/rss.rs` constructs `FeedError::InvalidFormat`
and converts `quick_xml` errors with `into()`, here `xmlSyntax`. -/
inductive FeedError where
  | invalidFormat (msg : String)
  | xmlSyntax (msg : String)
deriving Repr, DecidableEq

/-- Modelled from the spec: the `Display` rendering of a `FeedError`
used by `e.to_string()` in `parser/rss.rs`.  No claim inspects these
strings. -/
def FeedError.render : FeedError → String
  | .invalidFormat msg => msg
  | .xmlSyntax msg => msg

/-- Modelled from the spec: `ParserLimits::check_feed_size` (pre-flight
check of `limits.rs`): the total input size is checked before any parsing
begins and exceeding the cap is the single hard error. -/
def ParserLimits.check_feed_size (limits : ParserLimits) (len : Nat) :
    Except String Unit :=
  if len > limits.max_feed_size_bytes then
    .error s!"feed size {len} exceeds maximum {limits.max_feed_size_bytes}"
  else
    .ok ()

/-- The `parse_date` function of `util/date.rs`, translated exactly as
written: the body is a stub that ignores its input and returns `None`
("TODO: Implement in Phase 2"). -/
def parse_date (_input : String) : Option DateTimeUtc :=
  none

/-- The `detect_format` function of `parser/detect.rs`, translated
exactly as written: the body is a stub that ignores its input and returns
`FeedVersion::Unknown` ("TODO: Implement in Phase 2"). -/
def detect_format (_data : List UInt8) : FeedVersion :=
  .unknown

/-- The `parse` function of `parser/mod.rs`, translated exactly as
written: the body is a stub returning `Ok(ParsedFeed::new())`. -/
def parse (_data : List UInt8) : Except FeedError ParsedFeed :=
  .ok ParsedFeed.new

/-! Model of the external `url` crate (the `Url::parse` and `Url::join`
operations used by `util/base_url.rs`).  The crate implements the WHATWG
URL standard; this model covers the hierarchical special-scheme URLs
(`scheme://authority/path?query#fragment`) exercised by the claims:
scheme and host are lowercased, the path of a parsed URL is normalized
with the standard remove-dot-segments algorithm and defaults to "/", and
reference resolution follows RFC 3986 section 5.2 as the crate does for
these URLs.  Strings the model declines to parse (no scheme, or a
non-hierarchical body) are exactly those for which `resolve_url` falls
back to returning `href` unchanged, matching the behavior of the source
on such inputs. -/

/-- Splits a character list at the first occurrence of `c`: returns the
part before it and, when `c` occurs, the part after it. -/
def breakAtChar (c : Char) : List Char → List Char × Option (List Char)
  | [] => ([], none)
  | x :: xs =>
    if x = c then ([], some xs)
    else
      let r := breakAtChar c xs
      (x :: r.1, r.2)

/-- Splits a character list on every occurrence of `c`, keeping empty
segments. -/
def splitOnChar (c : Char) : List Char → List (List Char)
  | [] => [[]]
  | x :: xs =>
    if x = c then [] :: splitOnChar c xs
    else
      match splitOnChar c xs with
      | [] => [[x]]
      | s :: rest => (x :: s) :: rest

/-- Joins path segments with `/` separators. -/
def joinSegs : List (List Char) → List Char
  | [] => []
  | [s] => s
  | s :: rest => s ++ '/' :: joinSegs rest

/-- Output-stack loop of the remove-dot-segments algorithm of RFC 3986
section 5.2.4, working on the segments after the leading slash. -/
def rdsLoop (out : List (List Char)) : List (List Char) → List (List Char)
  | [] => out
  | seg :: rest =>
    if seg = ['.'] then
      if rest = [] then out ++ [[]] else rdsLoop out rest
    else if seg = ['.', '.'] then
      let out' := out.dropLast
      if rest = [] then out' ++ [[]] else rdsLoop out' rest
    else rdsLoop (out ++ [seg]) rest

/-- Remove-dot-segments for an absolute path (one starting with `/`). -/
def rdsAbs (p : List Char) : List Char :=
  match splitOnChar '/' p with
  | [] => p
  | _ :: segs => '/' :: joinSegs (rdsLoop [] segs)

/-- Whether a character list is a valid URL scheme name: a letter
followed by letters, digits, `+`, `-` or `.`. -/
def validSchemeName : List Char → Bool
  | [] => false
  | x :: xs =>
    x.isAlpha && xs.all fun ch => ch.isAlphanum || ch = '+' || ch = '-' || ch = '.'

/-- Model of a parsed hierarchical URL as the `url` crate represents it:
lowercased scheme and host, normalized absolute path, optional query and
fragment (stored without their `?`/`#` markers). -/
structure Url where
  scheme : String
  host : String
  path : String
  query : Option String := none
  fragment : Option String := none
deriving Repr, DecidableEq

/-- Parses the part of a hierarchical URL after `scheme://`: authority up
to the first `/`, `?` or `#`, then path, query and fragment.  An empty
authority is rejected, the path defaults to `/` and is normalized. -/
def parseHierarchical (scheme : List Char) (rest : List Char) : Option Url :=
  let notDelim : Char → Bool := fun ch => !(ch = '/' || ch = '?' || ch = '#')
  let auth := rest.takeWhile notDelim
  let rem := rest.dropWhile notDelim
  if auth = [] then none
  else
    let bf := breakAtChar '#' rem
    let pq := breakAtChar '?' bf.1
    let normPath := if pq.1 = [] then ['/'] else rdsAbs pq.1
    some
      { scheme := String.mk (scheme.map Char.toLower)
        host := String.mk (auth.map Char.toLower)
        path := String.mk normPath
        query := pq.2.map String.mk
        fragment := bf.2.map String.mk }

/-- Model of `Url::parse` of the `url` crate, restricted to hierarchical
URLs: requires a valid scheme followed by `://` and a non-empty
authority; anything else is rejected. -/
def Url.parse (s : String) : Option Url :=
  match breakAtChar ':' s.data with
  | (_, none) => none
  | (schemeCs, some rest) =>
    if validSchemeName schemeCs then
      match rest with
      | '/' :: '/' :: rest2 => parseHierarchical schemeCs rest2
      | _ => none
    else none

/-- Serialization of a parsed URL back to a string, as the crate does. -/
def Url.toString (u : Url) : String :=
  u.scheme ++ "://" ++ u.host ++ u.path ++
    (match u.query with | some q => "?" ++ q | none => "") ++
    (match u.fragment with | some f => "#" ++ f | none => "")

/-- Merge of a base path and a relative-path reference per RFC 3986
section 5.2.3: the base path up to and including its last slash, followed
by the reference path. -/
def mergePaths (basePath refPath : List Char) : List Char :=
  (basePath.reverse.dropWhile (fun ch => ch ≠ '/')).reverse ++ refPath

/-- Whether a reference string begins with a scheme component (a valid
scheme name followed by `:` occurring before any `/`, `?` or `#`). -/
def hasSchemePart (cs : List Char) : Bool :=
  match breakAtChar ':' cs with
  | (_, none) => false
  | (pre, some _) =>
    validSchemeName pre && pre.all fun ch => !(ch = '/' || ch = '?' || ch = '#')

/-- Model of `Url::join` of the `url` crate: RFC 3986 section 5.2
reference resolution against a hierarchical base.  Returns `none` when
the reference itself carries a scheme but does not parse as a
hierarchical URL (the crate reports an error there, which `resolve_url`
turns into the `href`-unchanged fallback). -/
def Url.join (base : Url) (ref : String) : Option Url :=
  let cs := ref.data
  if hasSchemePart cs then
    Url.parse ref
  else
    let bf := breakAtChar '#' cs
    let pq := breakAtChar '?' bf.1
    match pq.1 with
    | [] =>
      some
        { base with
          query := match pq.2 with | some q => some (String.mk q) | none => base.query
          fragment := bf.2.map String.mk }
    | '/' :: '/' :: rest2 =>
      parseHierarchical base.scheme.data rest2 |>.map fun u =>
        { u with
          scheme := base.scheme
          query := pq.2.map String.mk
          fragment := bf.2.map String.mk }
    | '/' :: _ =>
      some
        { scheme := base.scheme
          host := base.host
          path := String.mk (rdsAbs pq.1)
          query := pq.2.map String.mk
          fragment := bf.2.map String.mk }
    | _ =>
      some
        { scheme := base.scheme
          host := base.host
          path := String.mk (rdsAbs (mergePaths base.path.data pq.1))
          query := pq.2.map String.mk
          fragment := bf.2.map String.mk }

/-- Whether `p` is an initial segment of `s`, character by character;
this is `str::starts_with` on strings. -/
def headMatches : List Char → List Char → Bool
  | [], _ => true
  | _ :: _, [] => false
  | p :: ps, c :: cs => p = c && headMatches ps cs

/-- The absolute-scheme test at the top of `resolve_url` in
`util/base_url.rs`: the recognized absolute schemes are http, https,
mailto, tel and ftp, tested as literal string heads. -/
def hasAbsoluteScheme (href : String) : Bool :=
  headMatches "http://".data href.data || headMatches "https://".data href.data ||
  headMatches "mailto:".data href.data || headMatches "tel:".data href.data ||
  headMatches "ftp://".data href.data

/-- The `resolve_url` function of `util/base_url.rs`: absolute `href` is
returned unchanged; without a base, or with a base that fails to parse,
`href` is returned unchanged; otherwise `href` is joined onto the base,
falling back to `href` when the join fails. -/
def resolve_url (href : String) (base : Option String) : String :=
  if hasAbsoluteScheme href then href
  else
    match base with
    | none => href
    | some baseStr =>
      match Url.parse baseStr with
      | none => href
      | some baseUrl =>
        match baseUrl.join href with
        | some resolved => resolved.toString
        | none => href

/-- The `combine_bases` function of `util/base_url.rs`, with the match
arms in source order: a present child base is resolved against the
parent; otherwise the parent carries through; both absent yields none. -/
def combine_bases : Option String → Option String → Option String
  | parentBase, some child => some (resolve_url child parentBase)
  | some parent, none => some parent
  | none, none => none

/-- The `BaseUrlContext` struct of `util/base_url.rs`. -/
structure BaseUrlContext where
  base : Option String := none
deriving Repr, DecidableEq

/-- `BaseUrlContext::new`. -/
def BaseUrlContext.new : BaseUrlContext := { base := none }

/-- `BaseUrlContext::with_base`. -/
def BaseUrlContext.with_base (b : String) : BaseUrlContext := { base := some b }

/-- `BaseUrlContext::update_base`: mutates the context in place in the
source; modelled as returning the updated context. -/
def BaseUrlContext.update_base (c : BaseUrlContext) (xml_base : String) :
    BaseUrlContext :=
  { base := some (resolve_url xml_base c.base) }

/-- `BaseUrlContext::resolve`. -/
def BaseUrlContext.resolve (c : BaseUrlContext) (href : String) : String :=
  resolve_url href c.base

/-- `BaseUrlContext::child`. -/
def BaseUrlContext.child (c : BaseUrlContext) : BaseUrlContext :=
  { base := c.base }

/-- `BaseUrlContext::child_with_base`. -/
def BaseUrlContext.child_with_base (c : BaseUrlContext) (xml_base : String) :
    BaseUrlContext :=
  { base := combine_bases c.base (some xml_base) }

/-- Joining the empty reference onto a base keeps the base URL and drops
only its fragment (RFC 3986 section 5.3, as the crate behaves). -/
theorem url_join_empty (u : Url) :
    Url.join u "" = some { u with fragment := none } := rfl

/-- Claim C5: the rules of `resolve_url`, in source order: a recognized
absolute scheme is returned unchanged; a missing or unparsable base
returns `href` unchanged; otherwise `href` is joined onto the parsed base
per RFC 3986 semantics (with the join-failure fallback to `href` the
source carries); in particular the two concrete equations of the spec
hold. -/
theorem resolve_url_rules :
    (∀ href base, hasAbsoluteScheme href = true → resolve_url href base = href) ∧
    (∀ href, resolve_url href none = href) ∧
    (∀ href b, Url.parse b = none → resolve_url href (some b) = href) ∧
    (∀ href b u, Url.parse b = some u →
      resolve_url href (some b) =
        if hasAbsoluteScheme href then href
        else
          match Url.join u href with
          | some resolved => resolved.toString
          | none => href) ∧
    resolve_url "page.html" (some "http://example.com/dir/") =
      "http://example.com/dir/page.html" ∧
    resolve_url "page.html" none = "page.html" := by
  refine ⟨?_, ?_, ?_, ?_, by decide, by decide⟩
  · intro href base h
    simp [resolve_url, h]
  · intro href
    unfold resolve_url
    split <;> rfl
  · intro href b h
    simp [resolve_url, h]
  · intro href b u h
    unfold resolve_url
    split
    · rfl
    · simp [h]

/-- Witness for C5: the hypothesis-bearing rules applied at concrete
inputs, matching the worked examples of the spec. -/
theorem resolve_url_rules_witness :
    resolve_url "mailto:a@b.com" (some "http://y.com/") = "mailto:a@b.com" ∧
    resolve_url "http://x.com/a" (some "http://y.com/") = "http://x.com/a" ∧
    resolve_url "page.html" (some "not a valid url") = "page.html" :=
  ⟨resolve_url_rules.1 "mailto:a@b.com" (some "http://y.com/") (by decide),
   resolve_url_rules.1 "http://x.com/a" (some "http://y.com/") (by decide),
   resolve_url_rules.2.2.1 "page.html" "not a valid url" (by decide)⟩

/-- Counterexample for C6: resolving the empty string against a base does
not always return the base itself — an unparsable base yields the empty
string back, not the base. -/
theorem resolve_url_empty_counterexample :
    resolve_url "" (some "not a valid url") = "" ∧
    resolve_url "" (some "not a valid url") ≠ "not a valid url" := by
  constructor <;> decide

/-- Claim C6 (amended): a URL carrying one of the recognized absolute
schemes is returned unchanged for every base; resolving the empty string
against a base returns the base itself provided the base parses as a URL,
serializes back to itself and has no fragment; against an unparsable base
the empty string itself is returned instead. -/
theorem resolve_url_idempotence :
    (∀ href base, hasAbsoluteScheme href = true → resolve_url href base = href) ∧
    (∀ b u, Url.parse b = some u → u.fragment = none → Url.toString u = b →
      resolve_url "" (some b) = b) ∧
    (∀ b, Url.parse b = none → resolve_url "" (some b) = "") := by
  refine ⟨?_, ?_, ?_⟩
  · intro href base h
    simp [resolve_url, h]
  · intro b u hp hf hs
    have hu : ({ u with fragment := none } : Url) = u := by
      cases u
      simp_all
    have step : resolve_url "" (some b) =
        match Url.parse b with
        | none => ""
        | some baseUrl =>
          match Url.join baseUrl "" with
          | some resolved => resolved.toString
          | none => "" := rfl
    rw [step, hp]
    show Url.toString { u with fragment := none } = b
    rw [hu]
    exact hs
  · intro b h
    simp [resolve_url, h]

/-- Witness for C6 (amended): each amended rule applied at a concrete
input. -/
theorem resolve_url_idempotence_witness :
    resolve_url "http://x.com/a" (some "http://y.com/") = "http://x.com/a" ∧
    resolve_url "" (some "http://example.com/") = "http://example.com/" ∧
    resolve_url "" (some "not a valid url") = "" :=
  ⟨resolve_url_idempotence.1 "http://x.com/a" (some "http://y.com/") (by decide),
   resolve_url_idempotence.2.1 "http://example.com/"
     ⟨"http", "example.com", "/", none, none⟩ (by decide) rfl (by decide),
   resolve_url_idempotence.2.2 "not a valid url" (by decide)⟩

/-- Claim C10: the two ways of deriving the base of a nested scope agree:
`child_with_base` (through `combine_bases`) equals cloning the context
and calling `update_base` (through `resolve_url` directly), and both
yield `some (resolve_url b (c.base))`. -/
theorem child_with_base_eq_update_base (c : BaseUrlContext) (b : String) :
    c.child_with_base b = c.update_base b ∧
    (c.child_with_base b).base = some (resolve_url b c.base) := by
  cases c with
  | mk base => cases base <;> exact ⟨rfl, rfl⟩

/-- Counterexample for C7: an input whose XML root element is `rss` with
a version attribute is not classified as RSS 2.0 — the detector of this
revision returns `Unknown` for it. -/
theorem detect_format_rss_counterexample :
    detect_format ("<?xml version=\"1.0\"?><rss version=\"2.0\"></rss>".toUTF8.toList) =
      FeedVersion.unknown ∧
    FeedVersion.unknown ≠ FeedVersion.rss20 :=
  ⟨rfl, by decide⟩

/-- Claim C7 (amended): `detect_format` is total and never fails, but
performs no sniffing in this revision: it returns `Unknown` for every
input, including empty and binary input. -/
theorem detect_format_always_unknown :
    ∀ data : List UInt8, detect_format data = FeedVersion.unknown :=
  fun _ => rfl

/-- Claim C8 (code bug): `parse_date` is a stub returning `None` for
every input, including the well-formed RFC 2822 and RFC 3339 timestamps
the claim (and the test suite of `parser/rss.rs`) expect to parse. -/
theorem parse_date_always_none :
    parse_date "Sat, 14 Dec 2024 10:30:00 +0000" = none ∧
    parse_date "2024-12-14T10:30:00Z" = none ∧
    ∀ s : String, parse_date s = none :=
  ⟨rfl, rfl, fun _ => rfl⟩

/-! Embedding of the RSS 2.0 parser of `parser/rss.rs`.  The `quick_xml`
pull reader is modelled as a list of `XmlEvent`s consumed front to back,
which is how `Reader::read_event_into` presents the input; an exhausted
list plays the role of `Event::Eof`.  Event names stand for the local
names the source dispatches on (`local_name()`). -/

/-- One `quick_xml` event: element start, self-closing (empty) element,
text, CDATA, element end, or a tokenizer error. -/
inductive XmlEvent where
  | start (name : String) (attrs : List (String × String))
  | empty (name : String) (attrs : List (String × String))
  | text (s : String)
  | cdata (s : String)
  | endTag (name : String)
  | parseError (msg : String)
deriving Repr, DecidableEq

/-- Raw parser input as the byte level presents it: the byte length (read
by the pre-flight size check) together with the event stream the
tokenizer yields on those bytes.  Arbitrary event lists, including
`parseError` events, represent arbitrary (also malformed or binary)
byte sequences. -/
structure RawInput where
  len : Nat
  events : List XmlEvent
deriving Repr, DecidableEq

/-- Modelled from the spec: text truncation of the Limit Governor ("any
text or attribute value longer than its respective cap is
truncated/ignored rather than causing failure"). -/
def truncateText (maxLen : Nat) (s : String) : String :=
  if s.length ≤ maxLen then s else ⟨s.data.take maxLen⟩

/-- Modelled from the spec: `read_text` of `parser/common.rs` (declared
in `parser/rss.rs` but absent from the sources).  Collects the text of
the current element up to its end tag, treating CDATA and plain text
identically, truncating to the text-length cap; a tokenizer error is
propagated, and stray markup inside a text element is a recoverable
format error. -/
def readText (limits : ParserLimits) (acc : String) :
    List XmlEvent → (Except FeedError String) × List XmlEvent
  | [] => (.ok (truncateText limits.max_text_length acc), [])
  | .text s :: rest => readText limits (acc ++ s) rest
  | .cdata s :: rest => readText limits (acc ++ s) rest
  | .endTag _ :: rest => (.ok (truncateText limits.max_text_length acc), rest)
  | .parseError msg :: rest => (.error (.xmlSyntax msg), rest)
  | .start _ _ :: rest =>
    (.error (.invalidFormat "unexpected element in text content"), rest)
  | .empty _ _ :: rest =>
    (.error (.invalidFormat "unexpected element in text content"), rest)

/-- The nesting-depth error of `parser/rss.rs`, with its format string
"XML nesting depth .. exceeds maximum ..". -/
def depthError (d : Nat) (limits : ParserLimits) : FeedError :=
  .invalidFormat s!"XML nesting depth {d} exceeds maximum {limits.max_nesting_depth}"

/-- Modelled from the spec: `skip_element` of `parser/common.rs` (absent
from the sources).  Consumes events up to and including the end tag of
the already-opened element, tracking nested elements and still honoring
the depth limit while skipping ("skipping must still respect the depth
limit"); `depth` is the depth of the element being skipped. -/
def skipElement (limits : ParserLimits) (depth nested : Nat) :
    List XmlEvent → (Except FeedError Unit) × List XmlEvent
  | [] => (.ok (), [])
  | .start _ _ :: rest =>
    if depth + nested + 1 > limits.max_nesting_depth then
      (.error (depthError (depth + nested + 1) limits), rest)
    else skipElement limits depth (nested + 1) rest
  | .empty _ _ :: rest => skipElement limits depth nested rest
  | .endTag _ :: rest =>
    if nested = 0 then (.ok (), rest) else skipElement limits depth (nested - 1) rest
  | .parseError msg :: rest => (.error (.xmlSyntax msg), rest)
  | .text _ :: rest => skipElement limits depth nested rest
  | .cdata _ :: rest => skipElement limits depth nested rest

/-- Modelled from the spec: `try_push_limited` of the
`LimitedCollectionExt` trait of `types/generics.rs` (absent from the
sources): a bounded collection append that silently does not store the
element once the cap is reached. -/
def tryPushLimited {α : Type} (xs : List α) (x : α) (maxLen : Nat) : List α :=
  if xs.length < maxLen then xs ++ [x] else xs

/-- Modelled from the spec: `is_at_limit` of `types/generics.rs` (absent
from the sources): whether a bounded collection has reached its cap. -/
def isAtLimit {α : Type} (xs : List α) (maxLen : Nat) : Bool :=
  maxLen ≤ xs.length

/-- Modelled from the spec: `init_feed` of `parser/common.rs` (absent
from the sources): a fresh `ParsedFeed` committed to the given version;
the entry-capacity argument only pre-allocates. -/
def init_feed (version : FeedVersion) (_entryCapacity : Nat) : ParsedFeed :=
  { ParsedFeed.new with version := version }

/-- Models `str::parse` into an unsigned integer as used for `ttl`,
enclosure `length` and image dimensions: accepts a non-empty all-digit
string (overflow and the rarely seen leading plus sign do not arise in
the claims). -/
def parseNatDigits (s : String) : Option Nat :=
  if s.data = [] then none
  else if s.data.all Char.isDigit then
    some (s.data.foldl (fun n c => n * 10 + (c.toNat - 48)) 0)
  else none

/-- `Enclosure::from_attributes` of `types/common.rs`: folds over the
attributes, ignoring any whose value exceeds the attribute-length cap,
keeping the last `url`, `length` and `type` seen; yields an `Enclosure`
exactly when a `url` attribute was kept. -/
def Enclosure.from_attributes (attrs : List (String × String))
    (maxAttrLen : Nat) : Option Enclosure :=
  let st := attrs.foldl
    (fun (acc : Option String × Option Nat × Option String) attr =>
      if attr.2.length > maxAttrLen then acc
      else
        match attr.1 with
        | "url" => (some attr.2, acc.2.1, acc.2.2)
        | "length" => (acc.1, parseNatDigits attr.2, acc.2.2)
        | "type" => (acc.1, acc.2.1, some attr.2)
        | _ => acc)
    (none, none, none)
  st.1.map fun url => { url := url, length := st.2.1, enclosure_type := st.2.2 }

/-- The element view of an event: `parser/rss.rs` handles `Start` and
`Empty` events with one match arm, binding the name and attributes. -/
def eventElem : XmlEvent → Option (String × List (String × String))
  | .start name attrs => some (name, attrs)
  | .empty name attrs => some (name, attrs)
  | _ => none

/-- Remaining-input bound for `readText`: it only ever consumes events. -/
theorem readText_rest_le (limits : ParserLimits) :
    ∀ (l : List XmlEvent) (acc : String),
      (readText limits acc l).2.length ≤ l.length := by
  intro l
  induction l with
  | nil => intro acc; simp [readText]
  | cons e rest ih =>
    intro acc
    cases e <;> simp [readText] <;> exact (ih _).trans (Nat.le_succ _)

/-- Implication form of `readText_rest_le`, convenient for termination
proofs. -/
theorem readText_rest_le_eq {limits : ParserLimits} {acc : String}
    {l : List XmlEvent} {res : Except FeedError String} {r : List XmlEvent}
    (h : readText limits acc l = (res, r)) : r.length ≤ l.length := by
  have := readText_rest_le limits l acc
  rw [h] at this
  exact this

/-- Remaining-input bound for `skipElement`: it only ever consumes
events. -/
theorem skipElement_rest_le (limits : ParserLimits) :
    ∀ (l : List XmlEvent) (depth nested : Nat),
      (skipElement limits depth nested l).2.length ≤ l.length := by
  intro l
  induction l with
  | nil => intro depth nested; simp [skipElement]
  | cons e rest ih =>
    intro depth nested
    cases e <;> simp [skipElement] <;>
      first
        | exact (ih _ _).trans (Nat.le_succ _)
        | (split <;> (try simp) <;> exact (ih _ _).trans (Nat.le_succ _))

/-- Implication form of `skipElement_rest_le`. -/
theorem skipElement_rest_le_eq {limits : ParserLimits} {depth nested : Nat}
    {l : List XmlEvent} {res : Except FeedError Unit} {r : List XmlEvent}
    (h : skipElement limits depth nested l = (res, r)) : r.length ≤ l.length := by
  have := skipElement_rest_le limits l depth nested
  rw [h] at this
  exact this

/-- The `parse_source` function of `parser/rss.rs`: a loop over the
events of a `<source>` element collecting `title` and `url`, skipping
unknown children, ending at the matching end tag or at end of input.
Depth is incremented per child and restored on success; error returns
leave it incremented, as the source's early returns do. -/
def parseSource (limits : ParserLimits) (title link : Option String) (depth : Nat) :
    List XmlEvent → (Except FeedError Source) × Nat × List XmlEvent
  | [] => (.ok { title := title, link := link, id := none }, depth, [])
  | .start name _ :: rest =>
    if depth + 1 > limits.max_nesting_depth then
      (.error (depthError (depth + 1) limits), depth + 1, rest)
    else if name = "title" then
      match (readText limits "" rest).1 with
      | .ok t => parseSource limits (some t) link depth (readText limits "" rest).2
      | .error e => (.error e, depth + 1, (readText limits "" rest).2)
    else if name = "url" then
      match (readText limits "" rest).1 with
      | .ok t => parseSource limits title (some t) depth (readText limits "" rest).2
      | .error e => (.error e, depth + 1, (readText limits "" rest).2)
    else
      match (skipElement limits (depth + 1) 0 rest).1 with
      | .ok _ => parseSource limits title link depth (skipElement limits (depth + 1) 0 rest).2
      | .error e => (.error e, depth + 1, (skipElement limits (depth + 1) 0 rest).2)
  | .endTag name :: rest =>
    if name = "source" then
      (.ok { title := title, link := link, id := none }, depth, rest)
    else parseSource limits title link depth rest
  | .parseError msg :: rest => (.error (.xmlSyntax msg), depth, rest)
  | .empty _ _ :: rest => parseSource limits title link depth rest
  | .text _ :: rest => parseSource limits title link depth rest
  | .cdata _ :: rest => parseSource limits title link depth rest
termination_by l => l.length
decreasing_by
  all_goals simp_wf
  all_goals try omega
  all_goals
    first
      | exact Nat.lt_succ_of_le (readText_rest_le limits _ _)
      | exact Nat.lt_succ_of_le (skipElement_rest_le limits _ _ _)

theorem parseSource_rest_le (limits : ParserLimits) :
    ∀ (l : List XmlEvent) (title link : Option String) (depth : Nat),
      ((parseSource limits title link depth l).2.2).length ≤ l.length := by
  intro l title link depth
  induction title, link, depth, l using parseSource.induct limits <;>
    (simp only [parseSource]
     repeat' split) <;>
    first
      | omega
      | (simp
         done)
      | exact Nat.le_succ_of_le (readText_rest_le limits _ _)
      | exact Nat.le_succ_of_le (skipElement_rest_le limits _ _ _)
      | exact Nat.le_succ_of_le (le_trans (by assumption) (readText_rest_le limits _ _))
      | exact Nat.le_succ_of_le (le_trans (by assumption) (skipElement_rest_le limits _ _ _))
      | (apply Nat.le_succ_of_le
         assumption)
      | (simp_all
         first
           | done
           | exact Nat.le_succ_of_le (le_trans (by assumption) (readText_rest_le limits _ _))
           | exact Nat.le_succ_of_le (le_trans (by assumption) (skipElement_rest_le limits _ _ _)))

/-- Final step of `parse_image` in `parser/rss.rs`: after the loop, an
empty `url` is the "Image missing url" error, otherwise the record is
built. -/
def imageResult (url : String) (title link : Option String)
    (width height : Option Nat) (description : Option String) :
    Except FeedError Image :=
  if url = "" then .error (.invalidFormat "Image missing url")
  else
    .ok { url := url, title := title, link := link, width := width,
          height := height, description := description }

/-- The `parse_image` function of `parser/rss.rs`: a loop over the events
of an `<image>` element collecting url, title, link, width, height and
description (number fields keep their previous value when the text does
not parse), skipping unknown children, ending at the matching end tag or
at end of input, then checking that a url was seen. -/
def parseImage (limits : ParserLimits) (url : String) (title link : Option String)
    (width height : Option Nat) (description : Option String) (depth : Nat) :
    List XmlEvent → (Except FeedError Image) × Nat × List XmlEvent
  | [] => (imageResult url title link width height description, depth, [])
  | .start name _ :: rest =>
    if depth + 1 > limits.max_nesting_depth then
      (.error (depthError (depth + 1) limits), depth + 1, rest)
    else if name = "url" then
      match (readText limits "" rest).1 with
      | .ok t => parseImage limits t title link width height description depth
          (readText limits "" rest).2
      | .error e => (.error e, depth + 1, (readText limits "" rest).2)
    else if name = "title" then
      match (readText limits "" rest).1 with
      | .ok t => parseImage limits url (some t) link width height description depth
          (readText limits "" rest).2
      | .error e => (.error e, depth + 1, (readText limits "" rest).2)
    else if name = "link" then
      match (readText limits "" rest).1 with
      | .ok t => parseImage limits url title (some t) width height description depth
          (readText limits "" rest).2
      | .error e => (.error e, depth + 1, (readText limits "" rest).2)
    else if name = "width" then
      match (readText limits "" rest).1 with
      | .ok t =>
        parseImage limits url title link
          (match parseNatDigits t with | some w => some w | none => width)
          height description depth (readText limits "" rest).2
      | .error e => (.error e, depth + 1, (readText limits "" rest).2)
    else if name = "height" then
      match (readText limits "" rest).1 with
      | .ok t =>
        parseImage limits url title link width
          (match parseNatDigits t with | some h => some h | none => height)
          description depth (readText limits "" rest).2
      | .error e => (.error e, depth + 1, (readText limits "" rest).2)
    else if name = "description" then
      match (readText limits "" rest).1 with
      | .ok t => parseImage limits url title link width height (some t) depth
          (readText limits "" rest).2
      | .error e => (.error e, depth + 1, (readText limits "" rest).2)
    else
      match (skipElement limits (depth + 1) 0 rest).1 with
      | .ok _ => parseImage limits url title link width height description depth
          (skipElement limits (depth + 1) 0 rest).2
      | .error e => (.error e, depth + 1, (skipElement limits (depth + 1) 0 rest).2)
  | .endTag name :: rest =>
    if name = "image" then
      (imageResult url title link width height description, depth, rest)
    else parseImage limits url title link width height description depth rest
  | .parseError msg :: rest => (.error (.xmlSyntax msg), depth, rest)
  | .empty _ _ :: rest => parseImage limits url title link width height description depth rest
  | .text _ :: rest => parseImage limits url title link width height description depth rest
  | .cdata _ :: rest => parseImage limits url title link width height description depth rest
termination_by l => l.length
decreasing_by
  all_goals simp_wf
  all_goals try omega
  all_goals
    first
      | exact Nat.lt_succ_of_le (readText_rest_le limits _ _)
      | exact Nat.lt_succ_of_le (skipElement_rest_le limits _ _ _)

set_option maxHeartbeats 2000000 in
/-- Remaining-input bound for `parseImage`. -/
theorem parseImage_rest_le (limits : ParserLimits) :
    ∀ (l : List XmlEvent) (url : String) (title link : Option String)
      (width height : Option Nat) (description : Option String) (depth : Nat),
      ((parseImage limits url title link width height description depth l).2.2).length ≤
        l.length := by
  intro l url title link width height description depth
  induction url, title, link, width, height, description, depth, l
    using parseImage.induct limits <;>
    (simp only [parseImage]
     repeat' split) <;>
    first
      | omega
      | (simp
         done)
      | exact Nat.le_succ_of_le (readText_rest_le limits _ _)
      | exact Nat.le_succ_of_le (skipElement_rest_le limits _ _ _)
      | exact Nat.le_succ_of_le (le_trans (by assumption) (readText_rest_le limits _ _))
      | exact Nat.le_succ_of_le (le_trans (by assumption) (skipElement_rest_le limits _ _ _))
      | (apply Nat.le_succ_of_le
         assumption)
      | (simp_all
         first
           | done
           | exact Nat.le_succ_of_le (le_trans (by assumption) (readText_rest_le limits _ _))
           | exact Nat.le_succ_of_le (le_trans (by assumption) (skipElement_rest_le limits _ _ _)))

/-- Outcome of one iteration of an event-consuming parser loop of
`parser/rss.rs`: continue with an updated state, or leave the loop with
an output. -/
inductive LoopStep (σ ρ : Type) where
  | cont (state : σ) (depth : Nat) (rest : List XmlEvent)
  | halt (out : ρ) (depth : Nat) (rest : List XmlEvent)

/-- Remaining events of a `LoopStep`. -/
def LoopStep.rest {σ ρ : Type} : LoopStep σ ρ → List XmlEvent
  | .cont _ _ r => r
  | .halt _ _ r => r

/-- A scalar-text match arm of `parser/rss.rs`: read the element text,
apply the field setter on success, propagate the read error on failure
(leaving the depth incremented, as the early `?`-returns of the source
do). -/
def textArm {σ ρ : Type} (limits : ParserLimits) (depth : Nat)
    (rest : List XmlEvent) (upd : String → σ) (onErr : FeedError → ρ) :
    LoopStep σ ρ :=
  match (readText limits "" rest).1 with
  | .ok t => .cont (upd t) depth (readText limits "" rest).2
  | .error e => .halt (onErr e) (depth + 1) (readText limits "" rest).2

/-- A skip-subtree match arm of `parser/rss.rs`: skip the element and
continue with the given state, propagating a skip error. -/
def skipArm {σ ρ : Type} (limits : ParserLimits) (depth : Nat)
    (rest : List XmlEvent) (st : σ) (onErr : FeedError → ρ) : LoopStep σ ρ :=
  match (skipElement limits (depth + 1) 0 rest).1 with
  | .ok _ => .cont st depth (skipElement limits (depth + 1) 0 rest).2
  | .error e => .halt (onErr e) (depth + 1) (skipElement limits (depth + 1) 0 rest).2

/-- A text arm only ever consumes events. -/
theorem textArm_rest_le {σ ρ : Type} (limits : ParserLimits) (depth : Nat)
    (rest : List XmlEvent) (upd : String → σ) (onErr : FeedError → ρ) :
    ((textArm limits depth rest upd onErr).rest).length ≤ rest.length := by
  unfold textArm
  split
  all_goals simp only [LoopStep.rest]
  all_goals exact readText_rest_le limits _ _

/-- A skip arm only ever consumes events. -/
theorem skipArm_rest_le {σ ρ : Type} (limits : ParserLimits) (depth : Nat)
    (rest : List XmlEvent) (st : σ) (onErr : FeedError → ρ) :
    ((skipArm limits depth rest st onErr).rest).length ≤ rest.length := by
  unfold skipArm
  split
  all_goals simp only [LoopStep.rest]
  all_goals exact skipElement_rest_le limits _ _ _

/-- The shared loop shape of the parsers of `parser/rss.rs`: consume one
event, run the dispatch step, continue until the step halts or the input
ends (the `Eof` break of the source).  The consumption bound `hstep` is
what makes the loop well defined. -/
def runLoop {σ ρ : Type}
    (stepf : σ → Nat → XmlEvent → List XmlEvent → LoopStep σ ρ)
    (hstep : ∀ st depth ev rest, ((stepf st depth ev rest).rest).length ≤ rest.length)
    (onEof : σ → ρ) : σ → Nat → List XmlEvent → ρ × Nat × List XmlEvent
  | st, depth, [] => (onEof st, depth, [])
  | st, depth, ev :: rest =>
    match h : stepf st depth ev rest with
    | .cont st' d' rest' => runLoop stepf hstep onEof st' d' rest'
    | .halt out d' rest' => (out, d', rest')
termination_by st depth l => l.length
decreasing_by
  have hb := hstep st depth ev rest
  rw [h] at hb
  simp only [LoopStep.rest] at hb
  exact Nat.lt_succ_of_le hb

/-- A `runLoop` only ever consumes events. -/
theorem runLoop_rest_le {σ ρ : Type}
    (stepf : σ → Nat → XmlEvent → List XmlEvent → LoopStep σ ρ)
    (hstep : ∀ st depth ev rest, ((stepf st depth ev rest).rest).length ≤ rest.length)
    (onEof : σ → ρ) :
    ∀ (l : List XmlEvent) (st : σ) (depth : Nat),
      ((runLoop stepf hstep onEof st depth l).2.2).length ≤ l.length := by
  intro l st depth
  induction st, depth, l using runLoop.induct stepf hstep onEof with
  | case1 st depth => simp [runLoop]
  | case2 st depth ev rest st' d' rest' h ih =>
    rw [runLoop, h]
    have hb := hstep st depth ev rest
    rw [h] at hb
    simp only [LoopStep.rest] at hb
    exact Nat.le_succ_of_le (le_trans ih hb)
  | case3 st depth ev rest out d' rest' h =>
    rw [runLoop, h]
    have hb := hstep st depth ev rest
    rw [h] at hb
    simp only [LoopStep.rest] at hb
    exact Nat.le_succ_of_le hb

/-- Body of the `title` arm of `parse_item`. -/
def Entry.withTitle (e : Entry) (t : String) : Entry :=
  { e with title := some t }

/-- Body of the `link` arm of `parse_item`: sets the primary link and
try-pushes an alternate-relation `Link`. -/
def Entry.withLink (limits : ParserLimits) (e : Entry) (t : String) : Entry :=
  { e with
    link := some t
    links := tryPushLimited e.links
      { href := t, rel := some "alternate" } limits.max_links_per_entry }

/-- Body of the `description` arm of `parse_item`: populates both
`summary` and an HTML-typed `summary_detail`. -/
def Entry.withDescription (e : Entry) (t : String) : Entry :=
  { e with
    summary := some t
    summary_detail := some { value := t, content_type := .html } }

/-- Body of the `guid` arm of `parse_item`. -/
def Entry.withGuid (e : Entry) (t : String) : Entry :=
  { e with id := some t }

/-- Body of the `pubDate` arm of `parse_item`: stores the date-parser
result directly, never touching the bozo flag. -/
def Entry.withPubDate (e : Entry) (t : String) : Entry :=
  { e with published := parse_date t }

/-- Body of the `author` arm of `parse_item`. -/
def Entry.withAuthor (e : Entry) (t : String) : Entry :=
  { e with author := some t }

/-- Body of the `category` arm of `parse_item`: try-pushes a `Tag` whose
term is the element text. -/
def Entry.withCategory (limits : ParserLimits) (e : Entry) (t : String) : Entry :=
  { e with tags := tryPushLimited e.tags { term := t } limits.max_tags }

/-- Body of the `enclosure` arm of `parse_item`: an enclosure parsed from
the attributes is try-pushed; a missing `url` attribute drops it. -/
def Entry.withEnclosure (limits : ParserLimits) (e : Entry)
    (attrs : List (String × String)) : Entry :=
  match Enclosure.from_attributes attrs limits.max_attribute_length with
  | some enc =>
    { e with enclosures := tryPushLimited e.enclosures enc limits.max_enclosures }
  | none => e

/-- Body of the `comments` arm of `parse_item`. -/
def Entry.withComments (e : Entry) (t : String) : Entry :=
  { e with comments := some t }

/-- Body of the `source` arm of `parse_item`: a successfully parsed
sub-record is stored, an error is discarded. -/
def Entry.withSource (e : Entry) (res : Except FeedError Source) : Entry :=
  match res with
  | .ok src => { e with source := some src }
  | .error _ => e

/-- One iteration of the `parse_item` loop of `parser/rss.rs`,
dispatching on the consumed event exactly as the source's match does:
Start and Empty events dispatch on the local name to the arm bodies above
(the `enclosure` element is parsed from its attributes and then fully
skipped, `source` runs the sub-record parser, unknown names are skipped),
`</item>` leaves the loop with the accumulated entry, a tokenizer error
leaves it with that error, text and other end tags are ignored. -/
def itemStep (limits : ParserLimits) (entry : Entry) (depth : Nat)
    (ev : XmlEvent) (rest : List XmlEvent) : LoopStep Entry (Except FeedError Entry) :=
  match eventElem ev with
  | some (name, attrs) =>
    if depth + 1 > limits.max_nesting_depth then
      .halt (.error (depthError (depth + 1) limits)) (depth + 1) rest
    else if name = "title" then textArm limits depth rest entry.withTitle .error
    else if name = "link" then textArm limits depth rest (Entry.withLink limits entry) .error
    else if name = "description" then textArm limits depth rest entry.withDescription .error
    else if name = "guid" then textArm limits depth rest entry.withGuid .error
    else if name = "pubDate" then textArm limits depth rest entry.withPubDate .error
    else if name = "author" then textArm limits depth rest entry.withAuthor .error
    else if name = "category" then
      textArm limits depth rest (Entry.withCategory limits entry) .error
    else if name = "enclosure" then
      skipArm limits depth rest (Entry.withEnclosure limits entry attrs) .error
    else if name = "comments" then textArm limits depth rest entry.withComments .error
    else if name = "source" then
      .cont (entry.withSource (parseSource limits none none (depth + 1) rest).1)
        ((parseSource limits none none (depth + 1) rest).2.1 - 1)
        (parseSource limits none none (depth + 1) rest).2.2
    else skipArm limits depth rest entry .error
  | none =>
    match ev with
    | .endTag name =>
      if name = "item" then .halt (.ok entry) depth rest
      else .cont entry depth rest
    | .parseError msg => .halt (.error (.xmlSyntax msg)) depth rest
    | _ => .cont entry depth rest

/-- Consumption bound for a two-way branch between loop steps. -/
theorem LoopStep.rest_ite {σ ρ : Type} (c : Prop) [Decidable c]
    (a b : LoopStep σ ρ) (n : Nat)
    (ha : (a.rest).length ≤ n) (hb : (b.rest).length ≤ n) :
    (((if c then a else b) : LoopStep σ ρ).rest).length ≤ n := by
  split
  · exact ha
  · exact hb

/-- One `parse_item` loop iteration only ever consumes events. -/
theorem itemStep_rest_le (limits : ParserLimits) (entry : Entry) (depth : Nat)
    (ev : XmlEvent) (rest : List XmlEvent) :
    ((itemStep limits entry depth ev rest).rest).length ≤ rest.length := by
  unfold itemStep
  repeat' split
  all_goals
    repeat'
      first
        | exact le_refl _
        | exact textArm_rest_le limits _ _ _ _
        | exact skipArm_rest_le limits _ _ _ _
        | exact parseSource_rest_le limits _ _ _ _
        | apply LoopStep.rest_ite

/-- The `parse_item` function of `parser/rss.rs`, as the loop over
`itemStep`; reaching end of input (the `Eof` break) yields the entry
accumulated so far. -/
def parseItem (limits : ParserLimits) (entry : Entry) (depth : Nat)
    (l : List XmlEvent) : (Except FeedError Entry) × Nat × List XmlEvent :=
  runLoop (itemStep limits) (itemStep_rest_le limits) Except.ok entry depth l

/-- `parseItem` only ever consumes events. -/
theorem parseItem_rest_le (limits : ParserLimits) (l : List XmlEvent)
    (entry : Entry) (depth : Nat) :
    ((parseItem limits entry depth l).2.2).length ≤ l.length :=
  runLoop_rest_le _ _ _ l entry depth

/-- Body of the `title` arm of `parse_channel`. -/
def ParsedFeed.withTitle (f : ParsedFeed) (t : String) : ParsedFeed :=
  { f with feed := { f.feed with title := some t } }

/-- Body of the `link` arm of `parse_channel`: sets the primary link and
try-pushes an alternate-relation `Link`. -/
def ParsedFeed.withLink (limits : ParserLimits) (f : ParsedFeed) (t : String) :
    ParsedFeed :=
  { f with
    feed := { f.feed with
      link := some t
      links := tryPushLimited f.feed.links
        { href := t, rel := some "alternate" } limits.max_links_per_feed } }

/-- Body of the `description` arm of `parse_channel`. -/
def ParsedFeed.withSubtitle (f : ParsedFeed) (t : String) : ParsedFeed :=
  { f with feed := { f.feed with subtitle := some t } }

/-- Body of the `language` arm of `parse_channel`. -/
def ParsedFeed.withLanguage (f : ParsedFeed) (t : String) : ParsedFeed :=
  { f with feed := { f.feed with language := some t } }

/-- Body of the `pubDate` arm of `parse_channel`: a parsed date sets
`updated`; an unparsed non-empty text sets bozo with the "Invalid
pubDate format" description; an unparsed empty text does nothing. -/
def ParsedFeed.withPubDate (f : ParsedFeed) (t : String) : ParsedFeed :=
  match parse_date t with
  | some dt => { f with feed := { f.feed with updated := some dt } }
  | none =>
    if t = "" then f
    else { f with bozo := true, bozo_exception := some "Invalid pubDate format" }

/-- Body of the `managingEditor` arm of `parse_channel`. -/
def ParsedFeed.withAuthor (f : ParsedFeed) (t : String) : ParsedFeed :=
  { f with feed := { f.feed with author := some t } }

/-- Body of the `webMaster` arm of `parse_channel`. -/
def ParsedFeed.withPublisher (f : ParsedFeed) (t : String) : ParsedFeed :=
  { f with feed := { f.feed with publisher := some t } }

/-- Body of the `generator` arm of `parse_channel`. -/
def ParsedFeed.withGenerator (f : ParsedFeed) (t : String) : ParsedFeed :=
  { f with feed := { f.feed with generator := some t } }

/-- Body of the `ttl` arm of `parse_channel`: `text.parse().ok()`. -/
def ParsedFeed.withTtl (f : ParsedFeed) (t : String) : ParsedFeed :=
  { f with feed := { f.feed with ttl := parseNatDigits t } }

/-- Body of the `category` arm of `parse_channel`. -/
def ParsedFeed.withCategory (limits : ParserLimits) (f : ParsedFeed) (t : String) :
    ParsedFeed :=
  { f with feed := { f.feed with tags := tryPushLimited f.feed.tags { term := t } limits.max_tags } }

/-- Body of the `image` arm of `parse_channel`: a successfully parsed
image is stored, an error is discarded. -/
def ParsedFeed.withImageResult (f : ParsedFeed) (res : Except FeedError Image) :
    ParsedFeed :=
  match res with
  | .ok img => { f with feed := { f.feed with image := some img } }
  | .error _ => f

/-- Body of the `item` arm of `parse_channel` below the entry cap: a
parsed entry is pushed; a failed item sets bozo with the error text and
traversal continues. -/
def ParsedFeed.withEntryResult (f : ParsedFeed) (res : Except FeedError Entry) :
    ParsedFeed :=
  match res with
  | .ok en => { f with entries := f.entries ++ [en] }
  | .error e => { f with bozo := true, bozo_exception := some (FeedError.render e) }

/-- The bozo annotation of the `item` arm at the entry cap: "Entry limit
exceeded: <max>". -/
def ParsedFeed.withEntryLimitBozo (limits : ParserLimits) (f : ParsedFeed) :
    ParsedFeed :=
  { f with
    bozo := true
    bozo_exception := some ("Entry limit exceeded: " ++ toString limits.max_entries) }

/-- One iteration of the `parse_channel` loop of `parser/rss.rs`,
dispatching on the consumed event exactly as the source's match does:
Start and Empty events dispatch on the local name to the arm bodies
above; `image` runs the image sub-parser discarding its error; `item`
first consults the entry cap — at the cap the item is skipped and bozo
set, below it the item sub-parser runs and its error is absorbed into
bozo; unknown names are skipped; `</channel>` leaves the loop without
error, a tokenizer error leaves it with that error, text and other end
tags are ignored. -/
def channelStep (limits : ParserLimits) (feed : ParsedFeed) (depth : Nat)
    (ev : XmlEvent) (rest : List XmlEvent) :
    LoopStep ParsedFeed (ParsedFeed × Option FeedError) :=
  match eventElem ev with
  | some (name, _attrs) =>
    if depth + 1 > limits.max_nesting_depth then
      .halt (feed, some (depthError (depth + 1) limits)) (depth + 1) rest
    else if name = "title" then
      textArm limits depth rest feed.withTitle fun e => (feed, some e)
    else if name = "link" then
      textArm limits depth rest (ParsedFeed.withLink limits feed) fun e => (feed, some e)
    else if name = "description" then
      textArm limits depth rest feed.withSubtitle fun e => (feed, some e)
    else if name = "language" then
      textArm limits depth rest feed.withLanguage fun e => (feed, some e)
    else if name = "pubDate" then
      textArm limits depth rest feed.withPubDate fun e => (feed, some e)
    else if name = "managingEditor" then
      textArm limits depth rest feed.withAuthor fun e => (feed, some e)
    else if name = "webMaster" then
      textArm limits depth rest feed.withPublisher fun e => (feed, some e)
    else if name = "generator" then
      textArm limits depth rest feed.withGenerator fun e => (feed, some e)
    else if name = "ttl" then
      textArm limits depth rest feed.withTtl fun e => (feed, some e)
    else if name = "category" then
      textArm limits depth rest (ParsedFeed.withCategory limits feed) fun e => (feed, some e)
    else if name = "image" then
      .cont (feed.withImageResult
          (parseImage limits "" none none none none none (depth + 1) rest).1)
        ((parseImage limits "" none none none none none (depth + 1) rest).2.1 - 1)
        (parseImage limits "" none none none none none (depth + 1) rest).2.2
    else if name = "item" then
      if isAtLimit feed.entries limits.max_entries then
        skipArm limits depth rest (ParsedFeed.withEntryLimitBozo limits feed)
          fun e => (ParsedFeed.withEntryLimitBozo limits feed, some e)
      else
        .cont (feed.withEntryResult (parseItem limits {} (depth + 1) rest).1)
          ((parseItem limits {} (depth + 1) rest).2.1 - 1)
          (parseItem limits {} (depth + 1) rest).2.2
    else skipArm limits depth rest feed fun e => (feed, some e)
  | none =>
    match ev with
    | .endTag name =>
      if name = "channel" then .halt (feed, none) depth rest
      else .cont feed depth rest
    | .parseError msg => .halt (feed, some (.xmlSyntax msg)) depth rest
    | _ => .cont feed depth rest

/-- One `parse_channel` loop iteration only ever consumes events. -/
theorem channelStep_rest_le (limits : ParserLimits) (feed : ParsedFeed)
    (depth : Nat) (ev : XmlEvent) (rest : List XmlEvent) :
    ((channelStep limits feed depth ev rest).rest).length ≤ rest.length := by
  unfold channelStep
  repeat' split
  all_goals
    repeat'
      first
        | exact le_refl _
        | exact textArm_rest_le limits _ _ _ _
        | exact skipArm_rest_le limits _ _ _ _
        | exact parseImage_rest_le limits _ _ _ _ _ _ _ _
        | exact parseItem_rest_le limits _ _ _
        | apply LoopStep.rest_ite

/-- The `parse_channel` function of `parser/rss.rs`, as the loop over
`channelStep`; the mutable `feed` and `depth` of the source are threaded
explicitly, and the `Result` return is the `Option FeedError` component
(the feed accumulated so far is kept even on error, as the source
mutates it in place).  Reaching end of input (the `Eof` break) is a
success. -/
def parseChannel (limits : ParserLimits) (feed : ParsedFeed) (depth : Nat)
    (l : List XmlEvent) : (ParsedFeed × Option FeedError) × Nat × List XmlEvent :=
  runLoop (channelStep limits) (channelStep_rest_le limits)
    (fun f => (f, none)) feed depth l

/-- `parseChannel` only ever consumes events. -/
theorem parseChannel_rest_le (limits : ParserLimits) (l : List XmlEvent)
    (feed : ParsedFeed) (depth : Nat) :
    ((parseChannel limits feed depth l).2.2).length ≤ l.length :=
  runLoop_rest_le _ _ _ l feed depth

/-- Absorption of a `parse_channel` error at the top level of
`parse_rss20_with_limits`: the error is recorded as bozo with its
rendered text and parsing continues. -/
def ParsedFeed.absorbChannelErr (f : ParsedFeed) (err : Option FeedError) :
    ParsedFeed :=
  match err with
  | none => f
  | some e => { f with bozo := true, bozo_exception := some (FeedError.render e) }

/-- One iteration of the top-level loop of `parse_rss20_with_limits`: a
`<channel>` start element (only a Start event, with that local name)
runs the channel parser, absorbing its error into bozo; a tokenizer
error sets bozo with an "XML parsing error: .." description and stops
the loop; every other event is ignored. -/
def topStep (limits : ParserLimits) (feed : ParsedFeed) (depth : Nat)
    (ev : XmlEvent) (rest : List XmlEvent) : LoopStep ParsedFeed ParsedFeed :=
  match ev with
  | .start name _ =>
    if name = "channel" then
      .cont
        (ParsedFeed.absorbChannelErr (parseChannel limits feed (depth + 1) rest).1.1
          (parseChannel limits feed (depth + 1) rest).1.2)
        ((parseChannel limits feed (depth + 1) rest).2.1 - 1)
        (parseChannel limits feed (depth + 1) rest).2.2
    else .cont feed depth rest
  | .parseError msg =>
    .halt { feed with bozo := true, bozo_exception := some ("XML parsing error: " ++ msg) }
      depth rest
  | _ => .cont feed depth rest

/-- One top-level loop iteration only ever consumes events. -/
theorem topStep_rest_le (limits : ParserLimits) (feed : ParsedFeed)
    (depth : Nat) (ev : XmlEvent) (rest : List XmlEvent) :
    ((topStep limits feed depth ev rest).rest).length ≤ rest.length := by
  unfold topStep
  repeat' split
  all_goals
    repeat'
      first
        | exact le_refl _
        | exact parseChannel_rest_le limits _ _ _
        | apply LoopStep.rest_ite

/-- The top-level event loop of `parse_rss20_with_limits`. -/
def parseTop (limits : ParserLimits) (feed : ParsedFeed) (depth : Nat)
    (l : List XmlEvent) : ParsedFeed × Nat × List XmlEvent :=
  runLoop (topStep limits) (topStep_rest_le limits) id feed depth l

/-- The `parse_rss20_with_limits` function of `parser/rss.rs`: the
pre-flight size check is the single fatal error path; everything else
runs the tolerant top-level loop starting from a fresh RSS 2.0 feed at
depth 1 and always returns `Ok`. -/
def parse_rss20_with_limits (input : RawInput) (limits : ParserLimits) :
    Except FeedError ParsedFeed :=
  match limits.check_feed_size input.len with
  | .error e => .error (.invalidFormat e)
  | .ok _ =>
    .ok (parseTop limits (init_feed .rss20 limits.max_entries) 1 input.events).1

/-- The `parse_rss20` function of `parser/rss.rs`: parsing with the
default limits. -/
def parse_rss20 (input : RawInput) : Except FeedError ParsedFeed :=
  parse_rss20_with_limits input ParserLimits.default

/-! Valid RSS 2.0 documents, as abstract documents rendered to event
streams.  `RssDoc` captures the shape "an `<rss>` root holding one
`<channel>` with recognized scalar fields followed by `<item>` elements
with recognized scalar fields" — the well-formed documents the
functional-correctness claims quantify over.  `renderDoc` lays a
document out as the event stream the tokenizer would produce for it
(text nodes are omitted for empty strings, as the trimming tokenizer
configured in `parse_rss20_with_limits` drops whitespace-only text). -/

/-- An `<item>` fragment with the recognized scalar fields. -/
structure RssItem where
  title : Option String := none
  link : Option String := none
  description : Option String := none
  guid : Option String := none
  category : Option String := none
deriving Repr, DecidableEq

/-- A valid RSS 2.0 document: channel fields and items in order. -/
structure RssDoc where
  title : Option String := none
  link : Option String := none
  description : Option String := none
  items : List RssItem := []
deriving Repr, DecidableEq

/-- Text events of an element body: none for the empty string. -/
def renderText (s : String) : List XmlEvent :=
  if s = "" then [] else [.text s]

/-- Events of one optional scalar field element. -/
def renderField (name : String) (v : Option String) : List XmlEvent :=
  match v with
  | none => []
  | some s => .start name [] :: (renderText s ++ [.endTag name])

/-- Events of the body of one `<item>` element, end tag included. -/
def itemBody (it : RssItem) : List XmlEvent :=
  renderField "title" it.title ++
    (renderField "link" it.link ++
      (renderField "description" it.description ++
        (renderField "guid" it.guid ++
          (renderField "category" it.category ++ [.endTag "item"]))))

/-- Events of one `<item>` element. -/
def renderItem (it : RssItem) : List XmlEvent :=
  .start "item" [] :: itemBody it

/-- Events of a whole document. -/
def renderDoc (doc : RssDoc) : List XmlEvent :=
  .start "rss" [("version", "2.0")] ::
    .start "channel" [] ::
      (renderField "title" doc.title ++
        (renderField "link" doc.link ++
          (renderField "description" doc.description ++
            ((doc.items.map renderItem).flatten ++
              [.endTag "channel", .endTag "rss"]))))

/-- Applies a text-field setter to an optional rendered field value,
truncated as `readText` stores it. -/
def optTextUpd {α : Type} (limits : ParserLimits) (upd : α → String → α)
    (a : α) (v : Option String) : α :=
  match v with
  | some s => upd a (truncateText limits.max_text_length s)
  | none => a

/-- The entry that parsing one rendered `<item>` produces. -/
def itemApply (limits : ParserLimits) (it : RssItem) (entry : Entry) : Entry :=
  optTextUpd limits (Entry.withCategory limits)
    (optTextUpd limits Entry.withGuid
      (optTextUpd limits Entry.withDescription
        (optTextUpd limits (Entry.withLink limits)
          (optTextUpd limits Entry.withTitle entry it.title)
          it.link)
        it.description)
      it.guid)
    it.category

/-- Unfolding lemma for the empty-input arm of `runLoop`. -/
theorem runLoop_nil {σ ρ : Type}
    (stepf : σ → Nat → XmlEvent → List XmlEvent → LoopStep σ ρ)
    (hstep : ∀ st depth ev rest, ((stepf st depth ev rest).rest).length ≤ rest.length)
    (onEof : σ → ρ) (st : σ) (depth : Nat) :
    runLoop stepf hstep onEof st depth [] = (onEof st, depth, []) := by
  rw [runLoop]

/-- Unfolding lemma for the consuming arm of `runLoop`. -/
theorem runLoop_cons {σ ρ : Type}
    (stepf : σ → Nat → XmlEvent → List XmlEvent → LoopStep σ ρ)
    (hstep : ∀ st depth ev rest, ((stepf st depth ev rest).rest).length ≤ rest.length)
    (onEof : σ → ρ) (st : σ) (depth : Nat) (ev : XmlEvent) (rest : List XmlEvent) :
    runLoop stepf hstep onEof st depth (ev :: rest) =
      match stepf st depth ev rest with
      | .cont st' d' rest' => runLoop stepf hstep onEof st' d' rest'
      | .halt out d' rest' => (out, d', rest') := by
  cases hs : stepf st depth ev rest with
  | cont st' d' r' => rw [runLoop, hs]
  | halt out d' r' => rw [runLoop, hs]

/-- Reading a rendered element body yields the (truncated) field text and
the events after the end tag. -/
theorem readText_render (limits : ParserLimits) (s : String) (n : String)
    (tail : List XmlEvent) :
    readText limits "" (renderText s ++ (.endTag n :: tail)) =
      (.ok (truncateText limits.max_text_length s), tail) := by
  by_cases h : s = ""
  · subst h
    simp [renderText, readText, truncateText]
  · simp [renderText, h, readText]

/-- Parsing a rendered `title` field inside an item applies the title
setter and moves on. -/
theorem parseItem_field_title (limits : ParserLimits) (entry : Entry)
    (depth : Nat) (v : Option String) (tail : List XmlEvent)
    (h : depth + 1 ≤ limits.max_nesting_depth) :
    parseItem limits entry depth (renderField "title" v ++ tail) =
      parseItem limits (optTextUpd limits Entry.withTitle entry v) depth tail := by
  cases v with
  | none => simp [renderField, optTextUpd]
  | some s =>
    have hgt : ¬ (depth + 1 > limits.max_nesting_depth) := by omega
    have hread := readText_render limits s "title" tail
    unfold parseItem
    simp only [renderField, optTextUpd, List.cons_append, List.append_assoc,
      List.singleton_append]
    rw [runLoop_cons]
    simp [itemStep, eventElem, hgt, textArm, hread]

/-- Parsing a rendered `link` field inside an item applies the link
setter and moves on. -/
theorem parseItem_field_link (limits : ParserLimits) (entry : Entry)
    (depth : Nat) (v : Option String) (tail : List XmlEvent)
    (h : depth + 1 ≤ limits.max_nesting_depth) :
    parseItem limits entry depth (renderField "link" v ++ tail) =
      parseItem limits (optTextUpd limits (Entry.withLink limits) entry v) depth tail := by
  cases v with
  | none => simp [renderField, optTextUpd]
  | some s =>
    have hgt : ¬ (depth + 1 > limits.max_nesting_depth) := by omega
    have hread := readText_render limits s "link" tail
    unfold parseItem
    simp only [renderField, optTextUpd, List.cons_append, List.append_assoc,
      List.singleton_append]
    rw [runLoop_cons]
    simp [itemStep, eventElem, hgt, textArm, hread]

/-- Parsing a rendered `description` field inside an item applies the description
setter and moves on. -/
theorem parseItem_field_description (limits : ParserLimits) (entry : Entry)
    (depth : Nat) (v : Option String) (tail : List XmlEvent)
    (h : depth + 1 ≤ limits.max_nesting_depth) :
    parseItem limits entry depth (renderField "description" v ++ tail) =
      parseItem limits (optTextUpd limits Entry.withDescription entry v) depth tail := by
  cases v with
  | none => simp [renderField, optTextUpd]
  | some s =>
    have hgt : ¬ (depth + 1 > limits.max_nesting_depth) := by omega
    have hread := readText_render limits s "description" tail
    unfold parseItem
    simp only [renderField, optTextUpd, List.cons_append, List.append_assoc,
      List.singleton_append]
    rw [runLoop_cons]
    simp [itemStep, eventElem, hgt, textArm, hread]

/-- Parsing a rendered `guid` field inside an item applies the guid
setter and moves on. -/
theorem parseItem_field_guid (limits : ParserLimits) (entry : Entry)
    (depth : Nat) (v : Option String) (tail : List XmlEvent)
    (h : depth + 1 ≤ limits.max_nesting_depth) :
    parseItem limits entry depth (renderField "guid" v ++ tail) =
      parseItem limits (optTextUpd limits Entry.withGuid entry v) depth tail := by
  cases v with
  | none => simp [renderField, optTextUpd]
  | some s =>
    have hgt : ¬ (depth + 1 > limits.max_nesting_depth) := by omega
    have hread := readText_render limits s "guid" tail
    unfold parseItem
    simp only [renderField, optTextUpd, List.cons_append, List.append_assoc,
      List.singleton_append]
    rw [runLoop_cons]
    simp [itemStep, eventElem, hgt, textArm, hread]

/-- Parsing a rendered `category` field inside an item applies the category
setter and moves on. -/
theorem parseItem_field_category (limits : ParserLimits) (entry : Entry)
    (depth : Nat) (v : Option String) (tail : List XmlEvent)
    (h : depth + 1 ≤ limits.max_nesting_depth) :
    parseItem limits entry depth (renderField "category" v ++ tail) =
      parseItem limits (optTextUpd limits (Entry.withCategory limits) entry v) depth tail := by
  cases v with
  | none => simp [renderField, optTextUpd]
  | some s =>
    have hgt : ¬ (depth + 1 > limits.max_nesting_depth) := by omega
    have hread := readText_render limits s "category" tail
    unfold parseItem
    simp only [renderField, optTextUpd, List.cons_append, List.append_assoc,
      List.singleton_append]
    rw [runLoop_cons]
    simp [itemStep, eventElem, hgt, textArm, hread]

/-- The body of an `<item>` followed by its end tag parses to exactly
the entry `itemApply` describes, consuming up to the end tag. -/
theorem parseItem_render (limits : ParserLimits) (entry : Entry) (depth : Nat)
    (it : RssItem) (tail : List XmlEvent)
    (h : depth + 1 ≤ limits.max_nesting_depth) :
    parseItem limits entry depth (itemBody it ++ tail) =
      (.ok (itemApply limits it entry), depth, tail) := by
  unfold itemBody
  simp only [List.append_assoc, List.singleton_append]
  rw [parseItem_field_title limits _ _ _ _ h, parseItem_field_link limits _ _ _ _ h,
    parseItem_field_description limits _ _ _ _ h, parseItem_field_guid limits _ _ _ _ h,
    parseItem_field_category limits _ _ _ _ h]
  unfold parseItem
  rw [runLoop_cons]
  simp [itemStep, eventElem, itemApply]

/-- Parsing a rendered `title` field inside a channel applies the
corresponding setter and moves on. -/
theorem parseChannel_field_title (limits : ParserLimits) (feed : ParsedFeed)
    (depth : Nat) (v : Option String) (tail : List XmlEvent)
    (h : depth + 1 ≤ limits.max_nesting_depth) :
    parseChannel limits feed depth (renderField "title" v ++ tail) =
      parseChannel limits (optTextUpd limits ParsedFeed.withTitle feed v) depth tail := by
  cases v with
  | none => simp [renderField, optTextUpd]
  | some s =>
    have hgt : ¬ (depth + 1 > limits.max_nesting_depth) := by omega
    have hread := readText_render limits s "title" tail
    unfold parseChannel
    simp only [renderField, optTextUpd, List.cons_append, List.append_assoc,
      List.singleton_append]
    rw [runLoop_cons]
    simp [channelStep, eventElem, hgt, textArm, hread]

/-- Parsing a rendered `link` field inside a channel applies the
corresponding setter and moves on. -/
theorem parseChannel_field_link (limits : ParserLimits) (feed : ParsedFeed)
    (depth : Nat) (v : Option String) (tail : List XmlEvent)
    (h : depth + 1 ≤ limits.max_nesting_depth) :
    parseChannel limits feed depth (renderField "link" v ++ tail) =
      parseChannel limits (optTextUpd limits (ParsedFeed.withLink limits) feed v) depth tail := by
  cases v with
  | none => simp [renderField, optTextUpd]
  | some s =>
    have hgt : ¬ (depth + 1 > limits.max_nesting_depth) := by omega
    have hread := readText_render limits s "link" tail
    unfold parseChannel
    simp only [renderField, optTextUpd, List.cons_append, List.append_assoc,
      List.singleton_append]
    rw [runLoop_cons]
    simp [channelStep, eventElem, hgt, textArm, hread]

/-- Parsing a rendered `description` field inside a channel applies the
corresponding setter and moves on. -/
theorem parseChannel_field_description (limits : ParserLimits) (feed : ParsedFeed)
    (depth : Nat) (v : Option String) (tail : List XmlEvent)
    (h : depth + 1 ≤ limits.max_nesting_depth) :
    parseChannel limits feed depth (renderField "description" v ++ tail) =
      parseChannel limits (optTextUpd limits ParsedFeed.withSubtitle feed v) depth tail := by
  cases v with
  | none => simp [renderField, optTextUpd]
  | some s =>
    have hgt : ¬ (depth + 1 > limits.max_nesting_depth) := by omega
    have hread := readText_render limits s "description" tail
    unfold parseChannel
    simp only [renderField, optTextUpd, List.cons_append, List.append_assoc,
      List.singleton_append]
    rw [runLoop_cons]
    simp [channelStep, eventElem, hgt, textArm, hread]

/-- Parsing a rendered `pubDate` field inside a channel applies the
corresponding setter and moves on. -/
theorem parseChannel_field_pubDate (limits : ParserLimits) (feed : ParsedFeed)
    (depth : Nat) (v : Option String) (tail : List XmlEvent)
    (h : depth + 1 ≤ limits.max_nesting_depth) :
    parseChannel limits feed depth (renderField "pubDate" v ++ tail) =
      parseChannel limits (optTextUpd limits ParsedFeed.withPubDate feed v) depth tail := by
  cases v with
  | none => simp [renderField, optTextUpd]
  | some s =>
    have hgt : ¬ (depth + 1 > limits.max_nesting_depth) := by omega
    have hread := readText_render limits s "pubDate" tail
    unfold parseChannel
    simp only [renderField, optTextUpd, List.cons_append, List.append_assoc,
      List.singleton_append]
    rw [runLoop_cons]
    simp [channelStep, eventElem, hgt, textArm, hread]

/-- Skipping a rendered optional field consumes exactly its events. -/
theorem skipElement_field (limits : ParserLimits) (d : Nat) (name : String)
    (v : Option String) (tail : List XmlEvent)
    (h : d + 1 ≤ limits.max_nesting_depth) :
    skipElement limits d 0 (renderField name v ++ tail) =
      skipElement limits d 0 tail := by
  cases v with
  | none => simp [renderField]
  | some s =>
    have hgt : ¬ (d + 0 + 1 > limits.max_nesting_depth) := by omega
    by_cases hs : s = "" <;>
      simp [renderField, renderText, hs, skipElement, hgt]

/-- Skipping the body of a rendered item consumes it up to and including
the item end tag. -/
theorem skipElement_itemBody (limits : ParserLimits) (d : Nat) (it : RssItem)
    (tail : List XmlEvent) (h : d + 1 ≤ limits.max_nesting_depth) :
    skipElement limits d 0 (itemBody it ++ tail) = (.ok (), tail) := by
  unfold itemBody
  simp only [List.append_assoc, List.singleton_append]
  rw [skipElement_field limits _ _ _ _ h, skipElement_field limits _ _ _ _ h,
    skipElement_field limits _ _ _ _ h, skipElement_field limits _ _ _ _ h,
    skipElement_field limits _ _ _ _ h]
  simp [skipElement]

/-- Below the entry cap, a rendered `<item>` parses to its entry, which
is pushed, and the channel loop moves on. -/
theorem parseChannel_item (limits : ParserLimits) (feed : ParsedFeed)
    (depth : Nat) (it : RssItem) (tail : List XmlEvent)
    (hd : depth + 2 ≤ limits.max_nesting_depth)
    (hcap : feed.entries.length < limits.max_entries) :
    parseChannel limits feed depth (renderItem it ++ tail) =
      parseChannel limits
        { feed with entries := feed.entries ++ [itemApply limits it {}] }
        depth tail := by
  have hgt : ¬ (depth + 1 > limits.max_nesting_depth) := by omega
  have hlim : isAtLimit feed.entries limits.max_entries = false := by
    simp only [isAtLimit, decide_eq_false_iff_not]
    omega
  have hitem := parseItem_render limits {} (depth + 1) it tail (by omega)
  unfold renderItem parseChannel
  simp only [List.cons_append]
  rw [runLoop_cons]
  simp [channelStep, eventElem, hgt, hlim, hitem, ParsedFeed.withEntryResult]

/-- At the entry cap, a rendered `<item>` is skipped, bozo is set with
the entry-limit description, and the channel loop moves on. -/
theorem parseChannel_item_skip (limits : ParserLimits) (feed : ParsedFeed)
    (depth : Nat) (it : RssItem) (tail : List XmlEvent)
    (hd : depth + 2 ≤ limits.max_nesting_depth)
    (hcap : limits.max_entries ≤ feed.entries.length) :
    parseChannel limits feed depth (renderItem it ++ tail) =
      parseChannel limits (ParsedFeed.withEntryLimitBozo limits feed) depth tail := by
  have hgt : ¬ (depth + 1 > limits.max_nesting_depth) := by omega
  have hlim : isAtLimit feed.entries limits.max_entries = true := by
    simp only [isAtLimit, decide_eq_true_eq]
    omega
  have hskip := skipElement_itemBody limits (depth + 1) it tail (by omega)
  unfold renderItem parseChannel
  simp only [List.cons_append]
  rw [runLoop_cons]
  simp [channelStep, eventElem, hgt, hlim, skipArm, hskip]

/-- The channel end tag leaves the channel loop without error. -/
theorem parseChannel_end (limits : ParserLimits) (feed : ParsedFeed)
    (depth : Nat) (tail : List XmlEvent) :
    parseChannel limits feed depth (.endTag "channel" :: tail) =
      ((feed, none), depth, tail) := by
  unfold parseChannel
  rw [runLoop_cons]
  simp [channelStep, eventElem]

/-- Below the cap, a run of rendered items parses to their entries in
document order, appended to the feed. -/
theorem parseChannel_items_fill (limits : ParserLimits) :
    ∀ (items : List RssItem) (feed : ParsedFeed) (depth : Nat)
      (tail : List XmlEvent),
      depth + 2 ≤ limits.max_nesting_depth →
      feed.entries.length + items.length ≤ limits.max_entries →
      parseChannel limits feed depth ((items.map renderItem).flatten ++ tail) =
        parseChannel limits
          { feed with entries := feed.entries ++ items.map fun it => itemApply limits it {} }
          depth tail := by
  intro items
  induction items with
  | nil => intro feed depth tail hd hc; simp
  | cons it items ih =>
    intro feed depth tail hd hc
    simp only [List.map_cons, List.flatten_cons, List.append_assoc]
    rw [parseChannel_item limits _ _ _ _ hd (by simp at hc ⊢; omega)]
    rw [ih _ _ _ hd (by simp at hc ⊢; omega)]
    simp [List.append_assoc]

/-- At the cap, a non-empty run of rendered items is skipped whole, with
bozo set by the entry-limit annotation. -/
theorem parseChannel_items_skip (limits : ParserLimits) :
    ∀ (items : List RssItem) (it : RssItem) (feed : ParsedFeed) (depth : Nat)
      (tail : List XmlEvent),
      depth + 2 ≤ limits.max_nesting_depth →
      limits.max_entries ≤ feed.entries.length →
      parseChannel limits feed depth (((it :: items).map renderItem).flatten ++ tail) =
        parseChannel limits (ParsedFeed.withEntryLimitBozo limits feed) depth tail := by
  intro items
  induction items with
  | nil =>
    intro it feed depth tail hd hc
    simp only [List.map_cons, List.map_nil, List.flatten_cons, List.flatten_nil, List.append_nil]
    rw [parseChannel_item_skip limits _ _ _ _ hd hc]
  | cons it2 items ih =>
    intro it feed depth tail hd hc
    simp only [List.map_cons, List.flatten_cons, List.append_assoc] at ih ⊢
    rw [parseChannel_item_skip limits _ _ _ _ hd hc]
    rw [ih it2 _ _ _ hd (by simp [ParsedFeed.withEntryLimitBozo]; omega)]
    simp [ParsedFeed.withEntryLimitBozo]

/-- Parsing a rendered `pubDate` field inside an item applies the
pubDate setter (which never touches bozo) and moves on. -/
theorem parseItem_field_pubDate (limits : ParserLimits) (entry : Entry)
    (depth : Nat) (v : Option String) (tail : List XmlEvent)
    (h : depth + 1 ≤ limits.max_nesting_depth) :
    parseItem limits entry depth (renderField "pubDate" v ++ tail) =
      parseItem limits (optTextUpd limits Entry.withPubDate entry v) depth tail := by
  cases v with
  | none => simp [renderField, optTextUpd]
  | some s =>
    have hgt : ¬ (depth + 1 > limits.max_nesting_depth) := by omega
    have hread := readText_render limits s "pubDate" tail
    unfold parseItem
    simp only [renderField, optTextUpd, List.cons_append, List.append_assoc,
      List.singleton_append]
    rw [runLoop_cons]
    simp [itemStep, eventElem, hgt, textArm, hread]

/-- The channel metadata a rendered document produces, in field order. -/
def chanApply (limits : ParserLimits) (doc : RssDoc) (feed : ParsedFeed) :
    ParsedFeed :=
  optTextUpd limits ParsedFeed.withSubtitle
    (optTextUpd limits (ParsedFeed.withLink limits)
      (optTextUpd limits ParsedFeed.withTitle feed doc.title)
      doc.link)
    doc.description

/-- Channel scalar fields leave the entry list untouched. -/
theorem chanApply_entries (limits : ParserLimits) (doc : RssDoc)
    (feed : ParsedFeed) : (chanApply limits doc feed).entries = feed.entries := by
  unfold chanApply optTextUpd ParsedFeed.withSubtitle ParsedFeed.withLink
    ParsedFeed.withTitle
  cases doc.title <;> cases doc.link <;> cases doc.description <;> simp

/-- The three channel scalar fields of a rendered document parse to
`chanApply` and the loop moves on. -/
theorem parseChannel_chanFields (limits : ParserLimits) (doc : RssDoc)
    (feed : ParsedFeed) (depth : Nat) (tail : List XmlEvent)
    (h : depth + 1 ≤ limits.max_nesting_depth) :
    parseChannel limits feed depth
      (renderField "title" doc.title ++
        (renderField "link" doc.link ++
          (renderField "description" doc.description ++ tail))) =
      parseChannel limits (chanApply limits doc feed) depth tail := by
  unfold chanApply
  rw [parseChannel_field_title limits _ _ _ _ h,
    parseChannel_field_link limits _ _ _ _ h,
    parseChannel_field_description limits _ _ _ _ h]

/-- The full result of parsing a rendered document whose items all fit
under the entry cap. -/
def docResult (limits : ParserLimits) (doc : RssDoc) : ParsedFeed :=
  { chanApply limits doc (init_feed .rss20 limits.max_entries) with
    entries := doc.items.map fun it => itemApply limits it {} }

/-- Parsing a rendered document with at most `max_entries` items yields
exactly `docResult`. -/
theorem parse_renderDoc (limits : ParserLimits) (doc : RssDoc) (len : Nat)
    (hdepth : 4 ≤ limits.max_nesting_depth)
    (hcount : doc.items.length ≤ limits.max_entries)
    (hsize : len ≤ limits.max_feed_size_bytes) :
    parse_rss20_with_limits ⟨len, renderDoc doc⟩ limits =
      .ok (docResult limits doc) := by
  have hnotbig : ¬ (len > limits.max_feed_size_bytes) := by omega
  have hcheck : ParserLimits.check_feed_size limits len = .ok () := by
    unfold ParserLimits.check_feed_size
    simp [hnotbig]
  unfold parse_rss20_with_limits
  dsimp only
  rw [hcheck]
  unfold parseTop renderDoc
  rw [runLoop_cons]
  simp only [topStep, String.reduceEq, reduceIte]
  rw [runLoop_cons]
  simp only [topStep, String.reduceEq, reduceIte, Nat.reduceAdd]
  rw [parseChannel_chanFields limits _ _ _ _ (by omega)]
  rw [parseChannel_items_fill limits _ _ _ _ (by omega)
    (by rw [chanApply_entries]; simp [init_feed, ParsedFeed.new]; omega)]
  rw [parseChannel_end]
  simp only [ParsedFeed.absorbChannelErr]
  rw [runLoop_cons]
  simp only [topStep]
  rw [runLoop_nil]
  simp only [docResult, id_eq]
  rw [chanApply_entries]
  simp [init_feed, ParsedFeed.new]

/-- Parsing a rendered document with more than `max_entries` items
stores exactly the first `max_entries` entries and sets the entry-limit
bozo annotation. -/
theorem parse_renderDoc_over (limits : ParserLimits) (doc : RssDoc) (len : Nat)
    (hdepth : 4 ≤ limits.max_nesting_depth)
    (hover : limits.max_entries < doc.items.length)
    (hsize : len ≤ limits.max_feed_size_bytes) :
    parse_rss20_with_limits ⟨len, renderDoc doc⟩ limits =
      .ok (ParsedFeed.withEntryLimitBozo limits
        { chanApply limits doc (init_feed .rss20 limits.max_entries) with
          entries :=
            (doc.items.take limits.max_entries).map fun it => itemApply limits it {} }) := by
  have hnotbig : ¬ (len > limits.max_feed_size_bytes) := by omega
  have hcheck : ParserLimits.check_feed_size limits len = .ok () := by
    unfold ParserLimits.check_feed_size
    simp [hnotbig]
  have hsplit : doc.items = doc.items.take limits.max_entries ++
      doc.items.drop limits.max_entries := (List.take_append_drop _ _).symm
  have htake : (doc.items.take limits.max_entries).length = limits.max_entries := by
    simp [List.length_take]
    omega
  obtain ⟨d, ds, hdrop⟩ :
      ∃ d ds, doc.items.drop limits.max_entries = d :: ds := by
    cases hcase : doc.items.drop limits.max_entries with
    | nil =>
      exfalso
      have := List.length_drop limits.max_entries doc.items
      rw [hcase] at this
      simp at this
      omega
    | cons d ds => exact ⟨d, ds, rfl⟩
  unfold parse_rss20_with_limits
  dsimp only
  rw [hcheck]
  unfold parseTop renderDoc
  rw [runLoop_cons]
  simp only [topStep, String.reduceEq, reduceIte]
  rw [runLoop_cons]
  simp only [topStep, String.reduceEq, reduceIte, Nat.reduceAdd]
  rw [parseChannel_chanFields limits _ _ _ _ (by omega)]
  conv_lhs => rw [hsplit]
  simp only [List.map_append, List.flatten_append, List.append_assoc]
  rw [parseChannel_items_fill limits _ _ _ _ (by omega)
    (by rw [chanApply_entries]; simp [init_feed, ParsedFeed.new, List.length_take]; try omega)]
  rw [hdrop]
  rw [parseChannel_items_skip limits ds d _ _ _ (by omega)
    (by rw [chanApply_entries]; simp [init_feed, ParsedFeed.new, List.length_take]; try omega)]
  rw [parseChannel_end]
  simp only [ParsedFeed.absorbChannelErr]
  rw [runLoop_cons]
  simp only [topStep]
  rw [runLoop_nil]
  simp only [id_eq]
  rw [show ((ParsedFeed.withEntryLimitBozo limits
      { chanApply limits doc (init_feed .rss20 limits.max_entries) with
        entries := (chanApply limits doc (init_feed .rss20 limits.max_entries)).entries ++
          (doc.items.take limits.max_entries).map fun it => itemApply limits it {} })) =
    (ParsedFeed.withEntryLimitBozo limits
      { chanApply limits doc (init_feed .rss20 limits.max_entries) with
        entries := (doc.items.take limits.max_entries).map fun it => itemApply limits it {} })
    from by rw [chanApply_entries]; simp [init_feed, ParsedFeed.new]]

/-- Claim C1: the `parse` entry point is total and never returns an
error (the stub returns a fresh feed for every input); the RSS parse
entry point `parse_rss20_with_limits` is total and returns an error
exactly when the pre-flight size check fails — every other input, no
matter how malformed (arbitrary event streams, including tokenizer
errors), yields an `Ok` feed. -/
theorem parse_never_fatal_except_size :
    (∀ data : List UInt8, parse data = .ok ParsedFeed.new) ∧
    (∀ (input : RawInput) (limits : ParserLimits),
      (∃ f, parse_rss20_with_limits input limits = .ok f) ↔
        input.len ≤ limits.max_feed_size_bytes) ∧
    (∀ (input : RawInput) (limits : ParserLimits),
      (∃ e, parse_rss20_with_limits input limits = .error e) ↔
        limits.max_feed_size_bytes < input.len) := by
  refine ⟨fun _ => rfl, ?_, ?_⟩ <;> intro input limits <;>
    unfold parse_rss20_with_limits ParserLimits.check_feed_size <;>
    by_cases h : input.len > limits.max_feed_size_bytes <;>
    simp [h] <;> omega

/-- Claim C2: every valid RSS 2.0 document (the rendered-document family
`RssDoc`) with at most `max_entries` items parses to a feed whose entry
list is exactly the image of the document's items in document order —
the entry count equals the item count and order is preserved. -/
theorem rss20_entry_count_and_order (limits : ParserLimits) (doc : RssDoc)
    (len : Nat) (hdepth : 4 ≤ limits.max_nesting_depth)
    (hcount : doc.items.length ≤ limits.max_entries)
    (hsize : len ≤ limits.max_feed_size_bytes) :
    ∃ f, parse_rss20_with_limits ⟨len, renderDoc doc⟩ limits = .ok f ∧
      f.entries = doc.items.map (fun it => itemApply limits it {}) ∧
      f.entries.length = doc.items.length := by
  refine ⟨docResult limits doc,
    parse_renderDoc limits doc len hdepth hcount hsize, ?_, ?_⟩
  · simp [docResult]
  · simp [docResult]

/-- Witness for C2 at a concrete two-item document. -/
theorem rss20_entry_count_and_order_witness :
    ∃ f, parse_rss20_with_limits
        ⟨50, renderDoc { title := some "Feed", items := [{ title := some "A" }, { title := some "B" }] }⟩
        ParserLimits.default = .ok f ∧
      f.entries = [{ title := some "A" }, { title := some "B" }].map
        (fun it => itemApply ParserLimits.default it {}) ∧
      f.entries.length = 2 := by
  have h := rss20_entry_count_and_order ParserLimits.default
    { title := some "Feed", items := [{ title := some "A" }, { title := some "B" }] }
    50 (by decide) (by decide) (by decide)
  simpa using h

/-- Claim C3: a rendered document with `max_entries + 5` items parses to
a feed storing exactly `max_entries` entries with the bozo flag set. -/
theorem rss20_entry_cap_excess (limits : ParserLimits) (doc : RssDoc)
    (len : Nat) (hdepth : 4 ≤ limits.max_nesting_depth)
    (hcount : doc.items.length = limits.max_entries + 5)
    (hsize : len ≤ limits.max_feed_size_bytes) :
    ∃ f, parse_rss20_with_limits ⟨len, renderDoc doc⟩ limits = .ok f ∧
      f.entries.length = limits.max_entries ∧ f.bozo = true := by
  have hover : limits.max_entries < doc.items.length := by omega
  refine ⟨_, parse_renderDoc_over limits doc len hdepth hover hsize, ?_, ?_⟩
  · simp [ParsedFeed.withEntryLimitBozo, List.length_take]
    omega
  · simp [ParsedFeed.withEntryLimitBozo]

/-- Witness for C3: an entry cap of one with six items stores one entry
and sets bozo. -/
theorem rss20_entry_cap_excess_witness :
    ∃ f, parse_rss20_with_limits
        ⟨10, renderDoc { items := List.replicate 6 {} }⟩
        { ParserLimits.default with max_entries := 1 } = .ok f ∧
      f.entries.length = 1 ∧ f.bozo = true := by
  have h := rss20_entry_cap_excess { ParserLimits.default with max_entries := 1 }
    { items := List.replicate 6 {} } 10 (by decide) (by decide) (by decide)
  simpa using h

/-- Events of a document whose channel carries one `pubDate` field. -/
def chanPubDateDoc (s : String) : List XmlEvent :=
  .start "rss" [("version", "2.0")] :: .start "channel" [] ::
    (renderField "pubDate" (some s) ++ [.endTag "channel", .endTag "rss"])

/-- Events of a document with one item carrying one `pubDate` field. -/
def itemPubDateDoc (s : String) : List XmlEvent :=
  .start "rss" [("version", "2.0")] :: .start "channel" [] :: .start "item" [] ::
    (renderField "pubDate" (some s) ++ [.endTag "item", .endTag "channel", .endTag "rss"])

/-- A channel-level `pubDate` parses through `ParsedFeed.withPubDate`. -/
theorem parse_chanPubDateDoc (limits : ParserLimits) (len : Nat) (s : String)
    (hdepth : 3 ≤ limits.max_nesting_depth)
    (hsize : len ≤ limits.max_feed_size_bytes) :
    parse_rss20_with_limits ⟨len, chanPubDateDoc s⟩ limits =
      .ok (ParsedFeed.withPubDate (init_feed .rss20 limits.max_entries)
        (truncateText limits.max_text_length s)) := by
  have hnotbig : ¬ (len > limits.max_feed_size_bytes) := by omega
  have hcheck : ParserLimits.check_feed_size limits len = .ok () := by
    unfold ParserLimits.check_feed_size
    simp [hnotbig]
  unfold parse_rss20_with_limits
  dsimp only
  rw [hcheck]
  unfold parseTop chanPubDateDoc
  rw [runLoop_cons]
  simp only [topStep, String.reduceEq, reduceIte]
  rw [runLoop_cons]
  simp only [topStep, String.reduceEq, reduceIte, Nat.reduceAdd]
  rw [parseChannel_field_pubDate limits _ _ _ _ (by omega)]
  rw [parseChannel_end]
  simp only [ParsedFeed.absorbChannelErr, optTextUpd]
  rw [runLoop_cons]
  simp only [topStep]
  rw [runLoop_nil]
  simp

/-- An item-level `pubDate` parses through `Entry.withPubDate`, with the
entry stored and the feed-level state untouched. -/
theorem parse_itemPubDateDoc (limits : ParserLimits) (len : Nat) (s : String)
    (hdepth : 4 ≤ limits.max_nesting_depth)
    (hcap : 1 ≤ limits.max_entries)
    (hsize : len ≤ limits.max_feed_size_bytes) :
    parse_rss20_with_limits ⟨len, itemPubDateDoc s⟩ limits =
      .ok { init_feed .rss20 limits.max_entries with
        entries := [Entry.withPubDate {} (truncateText limits.max_text_length s)] } := by
  have hnotbig : ¬ (len > limits.max_feed_size_bytes) := by omega
  have hcheck : ParserLimits.check_feed_size limits len = .ok () := by
    unfold ParserLimits.check_feed_size
    simp [hnotbig]
  have hgt : ¬ (2 + 1 > limits.max_nesting_depth) := by omega
  have hlim : isAtLimit (init_feed .rss20 limits.max_entries).entries
      limits.max_entries = false := by
    simp only [isAtLimit, decide_eq_false_iff_not, init_feed, ParsedFeed.new]
    simp
    omega
  have hitem := parseItem_field_pubDate limits {} 3 (some s)
    [.endTag "item", .endTag "channel", .endTag "rss"] (by omega)
  unfold parse_rss20_with_limits
  dsimp only
  rw [hcheck]
  unfold parseTop itemPubDateDoc
  rw [runLoop_cons]
  simp only [topStep, String.reduceEq, reduceIte]
  rw [runLoop_cons]
  simp only [topStep, String.reduceEq, reduceIte, Nat.reduceAdd]
  unfold parseChannel
  rw [runLoop_cons]
  simp only [channelStep, eventElem, String.reduceEq, reduceIte, hgt,
    ite_false, hlim, Bool.false_eq_true, Nat.reduceAdd]
  rw [hitem]
  simp only [optTextUpd]
  rw [show parseItem limits (Entry.withPubDate {} (truncateText limits.max_text_length s)) 3
      [.endTag "item", .endTag "channel", .endTag "rss"] =
    (.ok (Entry.withPubDate {} (truncateText limits.max_text_length s)), 3,
      [.endTag "channel", .endTag "rss"]) from by
    unfold parseItem
    rw [runLoop_cons]
    simp [itemStep, eventElem]]
  simp only [ParsedFeed.withEntryResult, Nat.reduceSub]
  rw [show runLoop (channelStep limits) (channelStep_rest_le limits)
      (fun f => (f, none))
      { init_feed .rss20 limits.max_entries with
        entries := (init_feed .rss20 limits.max_entries).entries ++
          [Entry.withPubDate {} (truncateText limits.max_text_length s)] } 2
      [.endTag "channel", .endTag "rss"] =
    (({ init_feed .rss20 limits.max_entries with
        entries := (init_feed .rss20 limits.max_entries).entries ++
          [Entry.withPubDate {} (truncateText limits.max_text_length s)] }, none), 2,
      [.endTag "rss"]) from by
    rw [runLoop_cons]
    simp [channelStep, eventElem]]
  simp only [ParsedFeed.absorbChannelErr]
  rw [runLoop_cons]
  simp only [topStep]
  rw [runLoop_nil]
  simp [init_feed, ParsedFeed.new]

/-- Counterexample for C4: an item-level `pubDate` holding a non-date,
non-empty string does not set bozo — the item arm stores the date-parser
result silently, unlike the channel arm. -/
theorem rss20_item_date_counterexample :
    ∃ f, parse_rss20_with_limits ⟨26, itemPubDateDoc "not a date"⟩
        ParserLimits.default = .ok f ∧
      f.bozo = false ∧ f.entries.map (fun en => en.published) = [none] := by
  have h := parse_itemPubDateDoc ParserLimits.default 26 "not a date"
    (by decide) (by decide) (by decide)
  refine ⟨_, h, ?_, ?_⟩
  · simp [init_feed, ParsedFeed.new]
  · simp [Entry.withPubDate, parse_date]

/-- Claim C4 (amended): only the channel-level `pubDate` sets bozo.
A channel `pubDate` whose non-empty text does not parse as a date sets
bozo with the "Invalid pubDate format" description and leaves the
timestamp unset while traversal continues; an empty (or absent) channel
`pubDate` leaves the timestamp unset without touching bozo; the
item-level `pubDate` never touches bozo and silently stores whatever the
date parser returns. -/
theorem rss20_date_bozo_amended :
    (∀ (limits : ParserLimits) (len : Nat) (s : String),
      3 ≤ limits.max_nesting_depth → len ≤ limits.max_feed_size_bytes →
      s ≠ "" → s.length ≤ limits.max_text_length →
      ∃ f, parse_rss20_with_limits ⟨len, chanPubDateDoc s⟩ limits = .ok f ∧
        f.bozo = true ∧ f.bozo_exception = some "Invalid pubDate format" ∧
        f.feed.updated = none) ∧
    (∀ (limits : ParserLimits) (len : Nat),
      3 ≤ limits.max_nesting_depth → len ≤ limits.max_feed_size_bytes →
      ∃ f, parse_rss20_with_limits ⟨len, chanPubDateDoc ""⟩ limits = .ok f ∧
        f.bozo = false ∧ f.feed.updated = none) ∧
    (∀ (limits : ParserLimits) (len : Nat) (s : String),
      4 ≤ limits.max_nesting_depth → 1 ≤ limits.max_entries →
      len ≤ limits.max_feed_size_bytes →
      ∃ f, parse_rss20_with_limits ⟨len, itemPubDateDoc s⟩ limits = .ok f ∧
        f.bozo = false ∧
        f.entries.map (fun en => en.published) =
          [parse_date (truncateText limits.max_text_length s)]) := by
  refine ⟨?_, ?_, ?_⟩
  · intro limits len s hdepth hsize hs hlen
    have ht : truncateText limits.max_text_length s = s := by
      simp [truncateText, hlen]
    have h := parse_chanPubDateDoc limits len s hdepth hsize
    rw [ht] at h
    refine ⟨_, h, ?_, ?_, ?_⟩ <;>
      simp [ParsedFeed.withPubDate, parse_date, hs, init_feed, ParsedFeed.new]
  · intro limits len hdepth hsize
    have h := parse_chanPubDateDoc limits len "" hdepth hsize
    refine ⟨_, h, ?_, ?_⟩ <;>
      simp [ParsedFeed.withPubDate, parse_date, truncateText, init_feed, ParsedFeed.new]
  · intro limits len s hdepth hcap hsize
    have h := parse_itemPubDateDoc limits len s hdepth hcap hsize
    refine ⟨_, h, ?_, ?_⟩
    · simp [init_feed, ParsedFeed.new]
    · simp [Entry.withPubDate]

/-- Witness for C4 (amended): the three amended rules applied at
concrete inputs with the default limits. -/
theorem rss20_date_bozo_amended_witness :
    (∃ f, parse_rss20_with_limits ⟨26, chanPubDateDoc "not a date"⟩
        ParserLimits.default = .ok f ∧
      f.bozo = true ∧ f.bozo_exception = some "Invalid pubDate format" ∧
      f.feed.updated = none) ∧
    (∃ f, parse_rss20_with_limits ⟨20, chanPubDateDoc ""⟩
        ParserLimits.default = .ok f ∧
      f.bozo = false ∧ f.feed.updated = none) ∧
    (∃ f, parse_rss20_with_limits ⟨30, itemPubDateDoc "2024-12-14T10:30:00Z"⟩
        ParserLimits.default = .ok f ∧
      f.bozo = false ∧
      f.entries.map (fun en => en.published) =
        [parse_date (truncateText ParserLimits.default.max_text_length
          "2024-12-14T10:30:00Z")]) :=
  ⟨rss20_date_bozo_amended.1 ParserLimits.default 26 "not a date"
      (by decide) (by decide) (by decide) (by decide),
   rss20_date_bozo_amended.2.1 ParserLimits.default 20 (by decide) (by decide),
   rss20_date_bozo_amended.2.2 ParserLimits.default 30 "2024-12-14T10:30:00Z"
      (by decide) (by decide) (by decide)⟩

/-- Following the spec's words for comparison: the `url` attribute value
an enclosure element is claimed to store — the last `url` attribute whose
value fits under the attribute-length cap, kept verbatim. -/
def lastUrlAttr (attrs : List (String × String)) (maxAttrLen : Nat) :
    Option String :=
  attrs.foldl
    (fun acc attr =>
      if attr.2.length > maxAttrLen then acc
      else if attr.1 = "url" then some attr.2 else acc)
    none

/-- The first component of the attribute fold of
`Enclosure::from_attributes` is the `lastUrlAttr` fold. -/
theorem encFold_fst (maxAttrLen : Nat) :
    ∀ (l : List (String × String)) (acc : Option String × Option Nat × Option String),
      (l.foldl
        (fun (acc : Option String × Option Nat × Option String) attr =>
          if attr.2.length > maxAttrLen then acc
          else
            match attr.1 with
            | "url" => (some attr.2, acc.2.1, acc.2.2)
            | "length" => (acc.1, parseNatDigits attr.2, acc.2.2)
            | "type" => (acc.1, acc.2.1, some attr.2)
            | _ => acc)
        acc).1 =
      l.foldl
        (fun acc attr =>
          if attr.2.length > maxAttrLen then acc
          else if attr.1 = "url" then some attr.2 else acc)
        acc.1 := by
  intro l
  induction l with
  | nil => intro acc; rfl
  | cons a t ih =>
    intro acc
    simp only [List.foldl_cons]
    rw [ih]
    congr 1
    by_cases h : a.2.length > maxAttrLen
    · simp [h]
    · simp only [h, reduceIte]
      split <;> simp_all

/-- The stored enclosure url is exactly the surviving `url` attribute
value, verbatim (an enclosure exists precisely when one was kept). -/
theorem from_attributes_url (attrs : List (String × String)) (maxAttrLen : Nat) :
    (Enclosure.from_attributes attrs maxAttrLen).map (fun enc => enc.url) =
      lastUrlAttr attrs maxAttrLen := by
  unfold Enclosure.from_attributes lastUrlAttr
  rw [← encFold_fst maxAttrLen attrs (none, none, none)]
  cases h : (List.foldl
      (fun (acc : Option String × Option Nat × Option String) attr =>
        if attr.2.length > maxAttrLen then acc
        else
          match attr.1 with
          | "url" => (some attr.2, acc.2.1, acc.2.2)
          | "length" => (acc.1, parseNatDigits attr.2, acc.2.2)
          | "type" => (acc.1, acc.2.1, some attr.2)
          | _ => acc)
      (none, none, none) attrs).1 <;> simp [h]

/-- A document with one channel `<link>` and one item carrying one
`<category>`, the values arbitrary strings (rendered with no text node
when empty). -/
def linkCatDoc (t c : String) : RssDoc :=
  { title := none, link := some t, description := none,
    items := [{ title := none, link := none, description := none,
                guid := none, category := some c }] }

/-- Counterexample for C9: an empty `<link></link>` stores a `Link` with
empty `href`, an empty `<category></category>` stores a `Tag` with empty
`term`, and `Enclosure::from_attributes` keeps an empty `url=""`
attribute as an `Enclosure` with empty `url` — the non-emptiness
invariant fails for all three record types. -/
theorem rss20_empty_href_counterexample :
    (∃ f, parse_rss20_with_limits ⟨24, renderDoc (linkCatDoc "" "")⟩
        ParserLimits.default = .ok f ∧
      f.feed.links.map (fun lk => lk.href) = [""] ∧
      f.entries.map (fun en => en.tags.map (fun tg => tg.term)) = [[""]]) ∧
    Enclosure.from_attributes [("url", "")]
        ParserLimits.default.max_attribute_length =
      some { url := "", length := none, enclosure_type := none } := by
  constructor
  · have h := parse_renderDoc ParserLimits.default (linkCatDoc "" "") 24
      (by decide) (by decide) (by decide)
    refine ⟨_, h, ?_, ?_⟩ <;>
      simp [docResult, chanApply, optTextUpd, linkCatDoc, itemApply,
        Entry.withCategory, ParsedFeed.withLink, tryPushLimited, truncateText,
        init_feed, ParsedFeed.new, ParserLimits.default]
  · rfl

/-- Claim C9 (amended): stored `Link` hrefs, `Tag` terms and `Enclosure`
urls equal the element text or attribute value verbatim (after text
truncation), with no non-emptiness guarantee: the enclosure url is
exactly the last surviving `url` attribute value, and a channel `<link>`
and an item `<category>` store their (possibly empty) element text as
`href` and `term`. -/
theorem rss20_stored_values_verbatim :
    (∀ (attrs : List (String × String)) (maxAttrLen : Nat),
      (Enclosure.from_attributes attrs maxAttrLen).map (fun enc => enc.url) =
        lastUrlAttr attrs maxAttrLen) ∧
    (∀ (limits : ParserLimits) (len : Nat) (t c : String),
      4 ≤ limits.max_nesting_depth → 1 ≤ limits.max_entries →
      1 ≤ limits.max_links_per_feed → 1 ≤ limits.max_tags →
      len ≤ limits.max_feed_size_bytes →
      ∃ f, parse_rss20_with_limits ⟨len, renderDoc (linkCatDoc t c)⟩ limits =
          .ok f ∧
        f.feed.links.map (fun lk => lk.href) =
          [truncateText limits.max_text_length t] ∧
        f.entries.map (fun en => en.tags.map (fun tg => tg.term)) =
          [[truncateText limits.max_text_length c]]) := by
  constructor
  · intro attrs maxAttrLen
    exact from_attributes_url attrs maxAttrLen
  · intro limits len t c hdepth hentries hlinks htags hsize
    have h := parse_renderDoc limits (linkCatDoc t c) len hdepth
      (by simp [linkCatDoc]; omega) hsize
    refine ⟨_, h, ?_, ?_⟩ <;>
      simp [docResult, chanApply, optTextUpd, linkCatDoc, itemApply,
        Entry.withCategory, ParsedFeed.withLink, tryPushLimited,
        init_feed, ParsedFeed.new, Nat.lt_of_lt_of_le Nat.zero_lt_one hlinks,
        Nat.lt_of_lt_of_le Nat.zero_lt_one htags]

/-- Witness for C9 (amended): both parts applied at concrete inputs. -/
theorem rss20_stored_values_verbatim_witness :
    ((Enclosure.from_attributes
        [("url", "https://e.example/a.mp3"), ("type", "audio/mpeg")] 4096).map
          (fun enc => enc.url) =
      lastUrlAttr
        [("url", "https://e.example/a.mp3"), ("type", "audio/mpeg")] 4096) ∧
    (∃ f, parse_rss20_with_limits
        ⟨40, renderDoc (linkCatDoc "https://x.example/" "tech")⟩
        ParserLimits.default = .ok f ∧
      f.feed.links.map (fun lk => lk.href) =
        [truncateText ParserLimits.default.max_text_length "https://x.example/"] ∧
      f.entries.map (fun en => en.tags.map (fun tg => tg.term)) =
        [[truncateText ParserLimits.default.max_text_length "tech"]]) :=
  ⟨rss20_stored_values_verbatim.1
      [("url", "https://e.example/a.mp3"), ("type", "audio/mpeg")] 4096,
   rss20_stored_values_verbatim.2 ParserLimits.default 40 "https://x.example/"
      "tech" (by decide) (by decide) (by decide) (by decide) (by decide)⟩

end FeedParser
